import Mathlib

/-! # Tekton Chains payload formats: a shallow embedding

This development embeds two formatters of the repository:

* `pkg/chains/formats/tekton/tekton.go`: the pass-through formatter, which checks the
  detached signatures of the TaskRun results against the `SVID` certificate
  (`CreatePayload`, `verifySpire`, `validateResults`, `verifyOne`);
* `pkg/chains/formats/intotoite6/intotoite6.go`: the in-toto formatter
  (`NewFormatter`, `CreatePayload`, `generateAttestationFromTaskRun`, `metadata`,
  `materials`, `recipe`, `gitInfo`).

Conventions of the embedding.

* A Go `string` is a `String`; `[]byte(s)` is the UTF-8 encoding `toBytes s`.
  `strings.HasPrefix` and `strings.HasSuffix` compare bytes in Go; on UTF-8 text this is the
  same as comparing the characters, which is what `HasPrefix` and `HasSuffix` do here.
* A Go `error` is an `Option String`: `none` is `nil`, `some msg` is an error whose
  `Error()` text is `msg`.
* A Go call either returns or panics: `Run α` has the two cases.
* A Go `map[string]V` is a `GoMap V`, an association list whose keys are pairwise
  distinct.
* The functions of the Go standard library that the code calls (`pem.Decode`,
  `x509.ParseCertificate`, `base64.StdEncoding.DecodeString`, `sha256.Sum256`,
  `ecdsa.VerifyASN1`, `rsa.VerifyPKCS1v15`, `ed25519.Verify`) are not part of the
  repository: they are the fields of a `GoEnv` record that every definition takes as a
  parameter, and every theorem holds for all of them.
* Go leaves the order of `range` over a map unspecified. The order is a field of `GoEnv`
  too (`rangeOrder`, any rearrangement of the keys), so every theorem holds for every
  order in which the runtime may visit the keys.
* Logging (`i.logger`, `fmt.Println`) has no effect on what is returned and is left out.
* A Go pointer that may be nil is an `Option`.
* The in-toto formatter calls three functions of `pkg/chains/formats/provenance` and reads
  two constants of `in-toto-golang/in_toto`; their source is not part of this development,
  so they are the fields of a `Packages` record that the formatter takes as a parameter.
* For the determinism of the in-toto formatter, what may differ between two calls on the
  same arguments is made explicit: `CreatePayloadIn` is `CreatePayload` run in a world `w`,
  which the functions of `provenance` and `sort.Slice` may read (record `Ambient`).
-/

set_option linter.dupNamespace false

namespace Chains

/-! ## Go runtime: bytes, strings, errors, maps -/

/-- The Go type `[]byte`. -/
abbrev Bytes := List UInt8

/-- The Go conversion `[]byte(s)`. -/
def toBytes (s : String) : Bytes := s.toUTF8.data.toList

/-- The Go function `strings.HasPrefix(s, pre)`. -/
def HasPrefix (s pre : String) : Bool := pre.data.isPrefixOf s.data

/-- The Go function `strings.HasSuffix(s, suf)`. -/
def HasSuffix (s suf : String) : Bool := suf.data.isSuffixOf s.data

/-- The Go type `error`: `none` is `nil`. -/
abbrev GoError := Option String

/-- The result of running a Go call: it returns a value or it panics. -/
inductive Run (α : Type) where
  | ret (a : α)
  | panic (msg : String)
deriving DecidableEq, Repr

/-- The text of the runtime panic raised by a dereference of a nil pointer. -/
def nilDereference : String :=
  "runtime error: invalid memory address or nil pointer dereference"

/-- The function `errors.Wrap(err, message)` of `github.com/pkg/errors`, on the error text. -/
def Wrap (err message : String) : String := message ++ ": " ++ err

/-- The Go type `map[string]V`. -/
abbrev GoMap (V : Type) := List (String × V)

namespace GoMap

/-- The Go expression `v, ok := m[k]`. -/
def get? {V : Type} : GoMap V → String → Option V
  | [], _ => none
  | (k', v) :: rest, k => if k' = k then some v else get? rest k

/-- The Go statement `m[k] = v`. -/
def set {V : Type} : GoMap V → String → V → GoMap V
  | [], k, v => [(k, v)]
  | (k', v') :: rest, k, v => if k' = k then (k, v) :: rest else (k', v') :: set rest k v

/-- The keys visited by `for key := range m`. -/
def keys {V : Type} (m : GoMap V) : List String := m.map Prod.fst

end GoMap

/-! ## The TaskRun data model (`github.com/tektoncd/pipeline/pkg/apis/pipeline/v1beta1`) -/

/-- The Go type `v1beta1.TaskRunResult`. -/
structure TaskRunResult where
  Name : String := ""
  Value : String := ""
deriving DecidableEq, Repr

/-- The Go type `v1beta1.ArrayOrString`; `ParamType` is its field `Type`. -/
structure ArrayOrString where
  ParamType : String := ""
  StringVal : String := ""
  ArrayVal : List String := []
deriving DecidableEq, Repr

/-- The Go type `v1beta1.Param`. -/
structure Param where
  Name : String := ""
  Value : ArrayOrString := {}
deriving DecidableEq, Repr

/-- The Go type `v1beta1.TaskRef`. -/
structure TaskRef where
  Name : String := ""
deriving DecidableEq, Repr

/-- The Go type `v1beta1.TaskRunSpec`, with the fields the formatters read. -/
structure TaskRunSpec where
  Params : List Param := []
  TaskRef : Option TaskRef := none
deriving DecidableEq, Repr

/-- The Go type `v1beta1.StepState`, with the name of the step and the image it ran. -/
structure StepState where
  Name : String := ""
  ContainerName : String := ""
  ImageID : String := ""
deriving DecidableEq, Repr

/-- The Go type `v1beta1.TaskRunStatus`, with the fields the formatters read; a time is
its Unix time in seconds. -/
structure TaskRunStatus where
  StartTime : Option Int := none
  CompletionTime : Option Int := none
  TaskRunResults : List TaskRunResult := []
  Steps : List StepState := []
deriving DecidableEq, Repr

/-- The Go type `v1beta1.TaskRun`. -/
structure TaskRun where
  Name : String := ""
  Spec : TaskRunSpec := {}
  Status : TaskRunStatus := {}
deriving DecidableEq, Repr

/-- The argument `obj interface{}` of `CreatePayload`: a `*v1beta1.TaskRun`, a `string`,
or a value of any other type, of which only the `%s` rendering is kept. -/
inductive Obj where
  | taskRun (tr : TaskRun)
  | str (s : String)
  | other (rendered : String)
deriving DecidableEq, Repr

/-- The text that the verb `%s` of `fmt` prints for a value that is not a TaskRun. -/
def Obj.render : Obj → String
  | .taskRun _ => ""
  | .str s => s
  | .other rendered => rendered

/-! ## The Go standard library and runtime, as a parameter -/

/-- The dynamic type of `cert.PublicKey`: one of the three key types that `verifyOne`
knows, or anything else (of which only the `%s` rendering is kept). -/
inductive PublicKey where
  | ecdsa (key : Bytes)
  | rsa (key : Bytes)
  | ed25519 (key : Bytes)
  | other (rendered : String)
deriving DecidableEq, Repr

/-- The Go type `x509.Certificate`, with the field the code reads. -/
structure Certificate where
  PublicKey : PublicKey
deriving DecidableEq, Repr

/-- The Go type `pem.Block`. -/
structure PemBlock where
  BlockType : String
  Bytes : Bytes
deriving DecidableEq, Repr

/-- The Go type `crypto.Hash`. -/
inductive CryptoHash where
  | MD5
  | SHA1
  | SHA256
  | SHA512
deriving DecidableEq, Repr

/-- The functions of the Go standard library that the formatters call, and the order in
which the runtime ranges over a map. -/
structure GoEnv where
  /-- The block returned by `pem.Decode(data)`: `none` is the nil block. -/
  pemDecode : Bytes → Option PemBlock
  /-- The function `x509.ParseCertificate(der)`. -/
  parseCertificate : Bytes → Except String Certificate
  /-- The function `base64.StdEncoding.DecodeString(s)`. -/
  base64Decode : String → Except String Bytes
  /-- The function `sha256.Sum256(data)`. -/
  sum256 : Bytes → Bytes
  /-- The function `ecdsa.VerifyASN1(pub, hash, sig)`. -/
  ecdsaVerifyASN1 : Bytes → Bytes → Bytes → Bool
  /-- The function `rsa.VerifyPKCS1v15(pub, hash, hashed, sig)`. -/
  rsaVerifyPKCS1v15 : Bytes → CryptoHash → Bytes → Bytes → GoError
  /-- The function `ed25519.Verify(pub, message, sig)`. -/
  ed25519Verify : Bytes → Bytes → Bytes → Bool
  /-- The order in which `for key := range m` visits the keys of `m`. -/
  rangeOrder : List String → List String
  /-- Every key is visited, once for each time it occurs. -/
  rangeOrder_perm : ∀ ks, (rangeOrder ks).Perm ks

/-- The environment `env` with another order of `range` over a map. -/
def GoEnv.withRangeOrder (env : GoEnv) (order : List String → List String)
    (horder : ∀ ks, (order ks).Perm ks) : GoEnv :=
  { env with rangeOrder := order, rangeOrder_perm := horder }

/-! ## `pkg/chains/formats/tekton/tekton.go` -/

namespace Tekton

/-- The function `verifyOne` of `tekton.go`. -/
def verifyOne (env : GoEnv) (pub : PublicKey) (key : String)
    (results : GoMap TaskRunResult) : GoError :=
  match results.get? (key ++ ".sig") with
  | none => some ("no signature found for " ++ key)
  | some signature =>
    match env.base64Decode signature.Value with
    | .error err => some ("invalid signature: " ++ err)
    | .ok b =>
      let value := ((results.get? key).getD {}).Value
      let h := env.sum256 (toBytes value)
      match pub with
      | .ecdsa t =>
        if !env.ecdsaVerifyASN1 t h b then some "invalid signature" else none
      | .rsa t => env.rsaVerifyPKCS1v15 t CryptoHash.SHA256 h b
      | .ed25519 t =>
        if !env.ed25519Verify t (toBytes value) b then some "invalid signature" else none
      | .other t => some ("unsupported key type: " ++ t)

/-- The loop `for key := range resultMap` of `validateResults`, over the keys still to
visit. -/
def verifyKeys (env : GoEnv) (pub : PublicKey) (resultMap : GoMap TaskRunResult) :
    List String → GoError
  | [] => none
  | key :: rest =>
    if HasSuffix key ".sig" then verifyKeys env pub resultMap rest
    else if key = "SVID" then verifyKeys env pub resultMap rest
    else
      match verifyOne env pub key resultMap with
      | some err => some err
      | none => verifyKeys env pub resultMap rest

/-- The first loop of `validateResults`: `resultMap[r.Name] = r` for every `r` of `rs`. -/
def buildResultMap (rs : List TaskRunResult) : GoMap TaskRunResult :=
  rs.foldl (fun m r => m.set r.Name r) []

/-- The method `validateResults` of `tekton.go`. The block returned by `pem.Decode` is
dereferenced (`block.Bytes`) without a nil check, so a nil block panics. -/
def validateResults (env : GoEnv) (rs : List TaskRunResult) : Run GoError :=
  let resultMap := buildResultMap rs
  match resultMap.get? "SVID" with
  | none => .ret none
  | some svid =>
    match env.pemDecode (toBytes svid.Value) with
    | none => .panic nilDereference
    | some block =>
      match env.parseCertificate block.Bytes with
      | .error err => .ret (some ("invalid SVID: " ++ err))
      | .ok cert =>
        .ret (verifyKeys env cert.PublicKey resultMap (env.rangeOrder resultMap.keys))

/-- The keys that the loop of `validateResults` passes to `verifyOne`: those that pass
the two guards `strings.HasSuffix(key, ".sig")` and `key == "SVID"`. -/
def isChecked (key : String) : Bool := !HasSuffix key ".sig" && decide (key ≠ "SVID")

/-- The result list in which every earlier duplicate has been removed: of the results of
one name, only the last stays. -/
def removeEarlierDuplicates : List TaskRunResult → List TaskRunResult
  | [] => []
  | r :: rest =>
    if rest.any (fun r' => decide (r'.Name = r.Name)) then removeEarlierDuplicates rest
    else r :: removeEarlierDuplicates rest

/-- The method `verifySpire` of `tekton.go`. -/
def verifySpire (env : GoEnv) (tr : TaskRun) : Run GoError :=
  let results := tr.Status.TaskRunResults
  match validateResults env results with
  | .panic msg => .panic msg
  | .ret (some err) => .ret (some (Wrap err "validating results"))
  | .ret none => .ret none

/-- The method `CreatePayload` of `tekton.go`: the pair `(payload, error)` it returns,
where `none` is the nil payload. -/
def CreatePayload (env : GoEnv) (obj : Obj) : Run (Option TaskRunStatus × GoError) :=
  match obj with
  | .taskRun v =>
    match verifySpire env v with
    | .panic msg => .panic msg
    | .ret (some err) => .ret (none, some (Wrap err "verifying spire"))
    | .ret none => .ret (some v.Status, none)
  | v => .ret (none, some ("unsupported type " ++ v.render))

end Tekton

/-! ## `pkg/chains/formats/intotoite6/intotoite6.go` -/

namespace InTotoIte6

/-- The constant `tektonID`. -/
def tektonID : String := "https://tekton.dev/attestations/chains@v1"

/-- The constant `commitParam`. -/
def commitParam : String := "CHAINS-GIT_COMMIT"

/-- The constant `urlParam`. -/
def urlParam : String := "CHAINS-GIT_URL"

/-- The Go type `intoto.ProvenanceMaterial`; `Digest` is a `map[string]string`. -/
structure ProvenanceMaterial where
  URI : String
  Digest : GoMap String
deriving DecidableEq, Repr

/-- The normalisation of the URL inside `gitInfo` (lines 167 to 171): the value of `url`
after `if !strings.HasPrefix(url, "git+") { url = "git+" + url }`. -/
def normalizeURL (url : String) : String :=
  if !HasPrefix url "git+" then "git+" ++ url else url

/-- The last parameter of the given name, if there is one. -/
def lastNamed (name : String) (ps : List Param) : Option Param :=
  ps.reverse.find? (fun p => decide (p.Name = name))

/-- One iteration of the loop of `gitInfo`, on the pair `(commit, url)`. -/
def gitInfoStep (acc : String × String) (p : Param) : String × String :=
  if p.Name = commitParam then (p.Value.StringVal, acc.2)
  else if p.Name = urlParam then (acc.1, normalizeURL p.Value.StringVal)
  else acc

/-- The function `gitInfo` of `intotoite6.go`: the pair `(commit, url)`. -/
def gitInfo (tr : TaskRun) : String × String :=
  tr.Spec.Params.foldl gitInfoStep ("", "")

/-- The inner loop of the insertion sort of package `sort`, on the reversed sorted
part of the slice: `x` moves left while `less x y` holds for its left neighbour `y`. -/
def insertSorted {α : Type} (less : α → α → Bool) (x : α) : List α → List α
  | [] => [x]
  | y :: ys => if less x y then y :: insertSorted less x ys else x :: y :: ys

/-- The function `sort.Slice(m, less)` for a slice of at most 12 elements, which Go sorts
by insertion sort. -/
def sortSlice {α : Type} (less : α → α → Bool) (m : List α) : List α :=
  (m.foldl (fun sortedRev x => insertSorted less x sortedRev) []).reverse

/-- The function `materials` of `intotoite6.go`. -/
def materials (tr : TaskRun) : List ProvenanceMaterial :=
  let m : List ProvenanceMaterial := []
  let (gitCommit, gitURL) := gitInfo tr
  let m :=
    if gitCommit ≠ "" ∧ gitURL ≠ "" then
      m ++ [{ URI := gitURL, Digest := [("git_commit", gitCommit)] }]
    else m
  sortSlice (fun a b => decide (a.URI ≤ b.URI)) m

/-! ### The statement types (`github.com/in-toto/in-toto-golang/in_toto`) -/

/-- A Go value of type `interface{}` found in the environment of a step: the nil
interface, a string, or any other value (of which only the `%v` rendering is kept). -/
inductive Value where
  | nil
  | str (s : String)
  | other (rendered : String)
deriving DecidableEq, Repr

/-- The dynamic type of the field `Environment interface{}` of a step: a
`map[string]interface{}`, or anything else. -/
inductive Environment where
  | mapping (m : GoMap Value)
  | notMapping (v : Value)
deriving DecidableEq, Repr

/-- An element of the slice that `provenance.Steps` returns, with the fields that
`recipe` reads. -/
structure RecipeStep where
  EntryPoint : String := ""
  Environment : Environment := .notMapping .nil
deriving DecidableEq, Repr

/-- The Go type `Step` of `intotoite6.go`. -/
structure Step where
  Container : Value := .nil
  Image : Value := .nil
  Entrypoint : String := ""
deriving DecidableEq, Repr

/-- The Go type `intoto.Subject`. -/
structure Subject where
  Name : String := ""
  Digest : GoMap String := []
deriving DecidableEq, Repr

/-- The Go type `intoto.ProvenanceMetadata`; a `*time.Time` is an optional Unix time. -/
structure ProvenanceMetadata where
  BuildStartedOn : Option Int := none
  BuildFinishedOn : Option Int := none
deriving DecidableEq, Repr

/-- The Go type `intoto.ProvenanceBuilder`. -/
structure ProvenanceBuilder where
  ID : String := ""
deriving DecidableEq, Repr

/-- The Go type `intoto.ProvenanceRecipe`; `RecipeType` is its field `Type`. A field that
a composite literal does not set holds its zero value, the default given here. -/
structure ProvenanceRecipe where
  RecipeType : String := ""
  DefinedInMaterial : Option Int := none
  EntryPoint : String := ""
  Arguments : List String := []
  Environment : List Step := []
deriving DecidableEq, Repr

/-- The Go type `intoto.ProvenancePredicate`. -/
structure ProvenancePredicate where
  Builder : ProvenanceBuilder := {}
  Recipe : ProvenanceRecipe := {}
  Metadata : Option ProvenanceMetadata := none
  Materials : List ProvenanceMaterial := []
deriving DecidableEq, Repr

/-- The Go type `intoto.StatementHeader`; `StatementType` is its field `Type`. -/
structure StatementHeader where
  StatementType : String := ""
  PredicateType : String := ""
  Subject : List Subject := []
deriving DecidableEq, Repr

/-- The Go type `intoto.ProvenanceStatement`. -/
structure ProvenanceStatement where
  StatementHeader : StatementHeader := {}
  Predicate : ProvenancePredicate := {}
deriving DecidableEq, Repr

/-- What `intotoite6.go` takes from packages whose source is not part of this
development: two constants of `in-toto-golang/in_toto` and three functions of
`pkg/chains/formats/provenance`. -/
structure Packages where
  /-- The constant `intoto.StatementInTotoV01`. -/
  StatementInTotoV01 : String
  /-- The constant `intoto.PredicateSLSAProvenanceV01`. -/
  PredicateSLSAProvenanceV01 : String
  /-- The function `provenance.GetSubjectDigests(tr, logger)`. -/
  GetSubjectDigests : TaskRun → List Subject
  /-- The function `provenance.Steps(tr)`. -/
  Steps : TaskRun → List RecipeStep
  /-- The function `provenance.Params(tr)`. -/
  Params : TaskRun → List String

/-- The Go type `config.BuilderConfig`. -/
structure BuilderConfig where
  ID : String := ""
deriving DecidableEq, Repr

/-- The Go type `config.Config`, with the field the formatter reads. -/
structure Config where
  Builder : BuilderConfig := {}
deriving DecidableEq, Repr

/-! ### The formatter -/

/-- The Go type `InTotoIte6` of `intotoite6.go`, without its logger. -/
structure InTotoIte6 where
  builderID : String := ""
deriving DecidableEq, Repr

/-- The function `NewFormatter` of `intotoite6.go`: the formatter and the nil error. -/
def NewFormatter (cfg : Config) : InTotoIte6 × GoError :=
  ({ builderID := cfg.Builder.ID }, none)

/-- The function `metadata` of `intotoite6.go`; the pointer it returns is never nil. -/
def metadata (tr : TaskRun) : Option ProvenanceMetadata :=
  let m : ProvenanceMetadata := {}
  let m :=
    match tr.Status.StartTime with
    | some t => { m with BuildStartedOn := some t }
    | none => m
  let m :=
    match tr.Status.CompletionTime with
    | some t => { m with BuildFinishedOn := some t }
    | none => m
  some m

/-- One iteration of the loop of `recipe`, on the slice `steps`: a step whose environment
is not a `map[string]interface{}` is skipped. -/
def recipeStep (steps : List Step) (s : RecipeStep) : List Step :=
  match s.Environment with
  | .notMapping _ => steps
  | .mapping env =>
    steps ++ [{ Container := (env.get? "container").getD .nil,
                Image := (env.get? "image").getD .nil,
                Entrypoint := s.EntryPoint }]

/-- The entry of the environment list for one step, in the words of the specification:
a step whose environment is a name-to-value mapping gives its `container`, its `image`
and its entry point; any other step gives no entry. -/
def specEnvironmentEntry (s : RecipeStep) : Option Step :=
  match s.Environment with
  | .mapping env =>
    some { Container := (env.get? "container").getD .nil,
           Image := (env.get? "image").getD .nil,
           Entrypoint := s.EntryPoint }
  | .notMapping _ => none

/-- The loop of `recipe` over the steps that `provenance.Steps` returned. -/
def recipeSteps (ss : List RecipeStep) : List Step := ss.foldl recipeStep []

/-- The function `recipe` of `intotoite6.go`. The composite literal it returns sets
`Type`, `Arguments` and `Environment` only. -/
def recipe (pk : Packages) (tr : TaskRun) : ProvenanceRecipe :=
  let steps := recipeSteps (pk.Steps tr)
  { RecipeType := tektonID,
    Arguments := pk.Params tr,
    Environment := steps }

/-- The method `generateAttestationFromTaskRun` of `intotoite6.go`: the pair
`(statement, error)` it returns. -/
def generateAttestationFromTaskRun (pk : Packages) (i : InTotoIte6) (tr : TaskRun) :
    Option ProvenanceStatement × GoError :=
  let att : ProvenanceStatement :=
    { StatementHeader :=
        { StatementType := pk.StatementInTotoV01,
          PredicateType := pk.PredicateSLSAProvenanceV01,
          Subject := pk.GetSubjectDigests tr },
      Predicate :=
        { Metadata := metadata tr,
          Materials := materials tr,
          Builder := { ID := i.builderID },
          Recipe := recipe pk tr } }
  (some att, none)

/-- The method `CreatePayload` of `intotoite6.go`: the pair `(payload, error)` it
returns, where `none` is the nil payload. -/
def CreatePayload (pk : Packages) (i : InTotoIte6) (obj : Obj) :
    Run (Option ProvenanceStatement × GoError) :=
  match obj with
  | .taskRun v => .ret (generateAttestationFromTaskRun pk i v)
  | v => .ret (none, some ("intoto does not support type: " ++ v.render))

/-! ### The formatter in a world that may change between two calls -/

/-- What `intotoite6.go` calls, with a world `w : World` that stands for all that a call
can observe besides its arguments: the logger of the formatter, the state of the process,
the clock. The three functions of `pkg/chains/formats/provenance` may read it
(`GetSubjectDigests` is handed the logger), and so may `sort.Slice`, which is not stable:
all that is known of the slice it leaves is that it is a rearrangement of the slice it
was given. -/
structure Ambient (World : Type) where
  /-- The constant `intoto.StatementInTotoV01`. -/
  StatementInTotoV01 : String
  /-- The constant `intoto.PredicateSLSAProvenanceV01`. -/
  PredicateSLSAProvenanceV01 : String
  /-- The function `provenance.GetSubjectDigests(tr, logger)`. -/
  GetSubjectDigests : World → TaskRun → List Subject
  /-- The function `provenance.Steps(tr)`. -/
  Steps : World → TaskRun → List RecipeStep
  /-- The function `provenance.Params(tr)`. -/
  Params : World → TaskRun → List String
  /-- The function `sort.Slice(m, less)` on a slice of materials. -/
  sortSlice : World → (ProvenanceMaterial → ProvenanceMaterial → Bool) →
    List ProvenanceMaterial → List ProvenanceMaterial
  /-- The contract of `sort.Slice`: the slice is rearranged, nothing is added or lost. -/
  sortSlice_perm : ∀ w less m, (sortSlice w less m).Perm m

/-- The function `materials` of `intotoite6.go`, run in the world `w`. -/
def materialsIn {World : Type} (amb : Ambient World) (w : World) (tr : TaskRun) :
    List ProvenanceMaterial :=
  let m : List ProvenanceMaterial := []
  let (gitCommit, gitURL) := gitInfo tr
  let m :=
    if gitCommit ≠ "" ∧ gitURL ≠ "" then
      m ++ [{ URI := gitURL, Digest := [("git_commit", gitCommit)] }]
    else m
  amb.sortSlice w (fun a b => decide (a.URI ≤ b.URI)) m

/-- The function `recipe` of `intotoite6.go`, run in the world `w`. -/
def recipeIn {World : Type} (amb : Ambient World) (w : World) (tr : TaskRun) :
    ProvenanceRecipe :=
  let steps := recipeSteps (amb.Steps w tr)
  { RecipeType := tektonID,
    Arguments := amb.Params w tr,
    Environment := steps }

/-- The method `generateAttestationFromTaskRun` of `intotoite6.go`, run in the world `w`. -/
def generateAttestationFromTaskRunIn {World : Type} (amb : Ambient World) (w : World)
    (i : InTotoIte6) (tr : TaskRun) : Option ProvenanceStatement × GoError :=
  let att : ProvenanceStatement :=
    { StatementHeader :=
        { StatementType := amb.StatementInTotoV01,
          PredicateType := amb.PredicateSLSAProvenanceV01,
          Subject := amb.GetSubjectDigests w tr },
      Predicate :=
        { Metadata := metadata tr,
          Materials := materialsIn amb w tr,
          Builder := { ID := i.builderID },
          Recipe := recipeIn amb w tr } }
  (some att, none)

/-- The method `CreatePayload` of `intotoite6.go`, run in the world `w`. -/
def CreatePayloadIn {World : Type} (amb : Ambient World) (w : World) (i : InTotoIte6)
    (obj : Obj) : Run (Option ProvenanceStatement × GoError) :=
  match obj with
  | .taskRun v => .ret (generateAttestationFromTaskRunIn amb w i v)
  | v => .ret (none, some ("intoto does not support type: " ++ v.render))

end InTotoIte6

/-- A stand-in for the Go standard library, for evaluating the code on concrete inputs.
PEM data starts with a dash (as `-----BEGIN` does), the certificate is the public key
type named by the first byte of the block, base64 text is rejected at byte 0 when its first
character is outside the base64 alphabet, the digest is the data itself, and a signature
is accepted when it equals the signed bytes; a map is ranged over in the order in which
its keys were first inserted. -/
def sampleEnv : GoEnv where
  pemDecode := fun data =>
    match data with
    | 45 :: rest => some { BlockType := "CERTIFICATE", Bytes := rest }
    | _ => none
  parseCertificate := fun der =>
    match der with
    | 69 :: rest => .ok { PublicKey := .ecdsa rest }
    | 82 :: rest => .ok { PublicKey := .rsa rest }
    | 68 :: rest => .ok { PublicKey := .ed25519 rest }
    | 79 :: _ => .ok { PublicKey := .other "%!s(<nil>)" }
    | _ => .error "x509: malformed certificate"
  base64Decode := fun s =>
    match s.data with
    | [] => .ok []
    | c :: _ =>
      if c.isAlphanum || c = '+' || c = '/' then .ok (toBytes s)
      else .error "illegal base64 data at input byte 0"
  sum256 := fun data => data
  ecdsaVerifyASN1 := fun _ hash sig => hash == sig
  rsaVerifyPKCS1v15 := fun _ _ hashed sig =>
    if hashed == sig then none else some "crypto/rsa: verification error"
  ed25519Verify := fun _ message sig => message == sig
  rangeOrder := fun ks => ks
  rangeOrder_perm := fun ks => List.Perm.refl ks

/-- A stand-in for the packages that the in-toto formatter calls, for evaluating the code
on concrete inputs: a subject for every result whose name ends in `_DIGEST`, a step with
a container and an image for every step of the status, and an argument made of the name,
the type and the string value of every parameter. -/
def samplePackages : InTotoIte6.Packages where
  StatementInTotoV01 := "https://in-toto.io/Statement/v0.1"
  PredicateSLSAProvenanceV01 := "https://slsa.dev/provenance/v0.1"
  GetSubjectDigests := fun tr =>
    tr.Status.TaskRunResults.filterMap fun r =>
      if HasSuffix r.Name "_DIGEST" then some { Name := r.Name, Digest := [("sha256", r.Value)] }
      else none
  Steps := fun tr =>
    tr.Status.Steps.map fun st =>
      { EntryPoint := "",
        Environment := .mapping [("container", .str st.Name), ("image", .str st.ImageID)] }
  Params := fun tr =>
    tr.Spec.Params.map fun p =>
      p.Name ++ "=\x7b" ++ p.Value.ParamType ++ " " ++ p.Value.StringVal ++ " []\x7d"

/-- A stand-in for what the in-toto formatter calls, in a world that is the number of the
call: the functions of `samplePackages`, which do not read the world, and a `sort.Slice`
that rotates the slice by the number of the call. -/
def sampleAmbient : InTotoIte6.Ambient Nat where
  StatementInTotoV01 := samplePackages.StatementInTotoV01
  PredicateSLSAProvenanceV01 := samplePackages.PredicateSLSAProvenanceV01
  GetSubjectDigests := fun _ tr => samplePackages.GetSubjectDigests tr
  Steps := fun _ tr => samplePackages.Steps tr
  Params := fun _ tr => samplePackages.Params tr
  sortSlice := fun w _ m => m.rotate w
  sortSlice_perm := fun w _ m => List.rotate_perm m w

/-! ## Lemmas on Go maps -/

namespace GoMap

theorem get?_eq_none_iff {V : Type} (m : GoMap V) (k : String) :
    m.get? k = none ↔ k ∉ m.keys := by
  induction m with
  | nil => simp [get?, keys]
  | cons p rest ih =>
    obtain ⟨k', v⟩ := p
    by_cases h : k' = k
    · simp [get?, keys, h]
    · have h' : ¬ k = k' := fun e => h e.symm
      simpa [get?, keys, h, h'] using ih

theorem get?_set {V : Type} (m : GoMap V) (k : String) (v : V) (k' : String) :
    (m.set k v).get? k' = if k = k' then some v else m.get? k' := by
  induction m with
  | nil => simp [set, get?]
  | cons p rest ih =>
    obtain ⟨k₀, v₀⟩ := p
    by_cases h : k₀ = k
    · subst h
      by_cases h' : k₀ = k' <;> simp [set, get?, h']
    · by_cases h' : k₀ = k'
      · subst h'
        have : ¬ k = k₀ := fun e => h e.symm
        simp [set, get?, h, this]
      · simp [set, get?, h, h', ih]

theorem mem_keys_set {V : Type} (m : GoMap V) (k : String) (v : V) (k' : String) :
    k' ∈ (m.set k v).keys ↔ k' = k ∨ k' ∈ m.keys := by
  induction m with
  | nil => simp [set, keys]
  | cons p rest ih =>
    obtain ⟨k₀, v₀⟩ := p
    by_cases h : k₀ = k
    · subst h
      simp [set, keys]
    · simp only [keys] at ih
      simp [set, keys, h, ih]
      tauto

end GoMap

namespace Tekton

theorem mem_keys_foldl_set (rs : List TaskRunResult) (m : GoMap TaskRunResult) (k : String) :
    k ∈ (rs.foldl (fun m r => m.set r.Name r) m).keys ↔
      k ∈ m.keys ∨ ∃ r ∈ rs, r.Name = k := by
  induction rs generalizing m with
  | nil => simp
  | cons r rest ih =>
    simp only [List.foldl_cons, ih, GoMap.mem_keys_set, List.mem_cons, exists_eq_or_imp]
    constructor
    · rintro ((h | h) | h)
      · exact Or.inr (Or.inl h.symm)
      · exact Or.inl h
      · exact Or.inr (Or.inr h)
    · rintro (h | h | h)
      · exact Or.inl (Or.inr h)
      · exact Or.inl (Or.inl h.symm)
      · exact Or.inr h

/-- The keys of the result map are the names of the results. -/
theorem mem_keys_buildResultMap (rs : List TaskRunResult) (k : String) :
    k ∈ (buildResultMap rs).keys ↔ ∃ r ∈ rs, r.Name = k := by
  rw [buildResultMap, mem_keys_foldl_set]
  simp [GoMap.keys]

/-- The keys that the loop of `validateResults` visits are the names of the results. -/
theorem mem_rangeOrder_keys (env : GoEnv) (rs : List TaskRunResult) (k : String) :
    k ∈ env.rangeOrder (buildResultMap rs).keys ↔ ∃ r ∈ rs, r.Name = k := by
  rw [(env.rangeOrder_perm _).mem_iff, mem_keys_buildResultMap]

/-- The loop over the keys returns nil exactly when every key it checks passes. -/
theorem verifyKeys_eq_none_iff (env : GoEnv) (pub : PublicKey)
    (m : GoMap TaskRunResult) (ks : List String) :
    verifyKeys env pub m ks = none ↔
      ∀ k ∈ ks, k ≠ "SVID" → HasSuffix k ".sig" = false → verifyOne env pub k m = none := by
  induction ks with
  | nil => simp [verifyKeys]
  | cons k rest ih =>
    simp only [verifyKeys, List.mem_cons, forall_eq_or_imp]
    by_cases hs : HasSuffix k ".sig" = true
    · simp [hs, ih]
    · by_cases hk : k = "SVID"
      · simp [hs, hk, ih]
      · cases hv : verifyOne env pub k m with
        | none => simp [hs, hk, ih]
        | some e => simp [hs, hk]

/-- When one key is the only one that fails its check, the loop returns its error. -/
theorem verifyKeys_eq_of_only_failure (env : GoEnv) (pub : PublicKey)
    (m : GoMap TaskRunResult) (ks : List String) (K e : String)
    (hK : K ∈ ks) (hne : K ≠ "SVID") (hsuf : HasSuffix K ".sig" = false)
    (hfail : verifyOne env pub K m = some e)
    (hothers : ∀ k ∈ ks, k ≠ K → k ≠ "SVID" → HasSuffix k ".sig" = false →
      verifyOne env pub k m = none) :
    verifyKeys env pub m ks = some e := by
  induction ks with
  | nil => simp at hK
  | cons k rest ih =>
    simp only [List.mem_cons, forall_eq_or_imp] at hothers
    by_cases hkK : k = K
    · subst hkK
      simp [verifyKeys, hsuf, hne, hfail]
    · have hK' : K ∈ rest := by
        rcases List.mem_cons.mp hK with h | h
        · exact absurd h.symm hkK
        · exact h
      have hrec := ih hK' hothers.2
      by_cases hs : HasSuffix k ".sig" = true
      · simp [verifyKeys, hs, hrec]
      · by_cases hk : k = "SVID"
        · simp [verifyKeys, hs, hk, hrec]
        · have hv := hothers.1 hkK hk (by simpa using hs)
          simp [verifyKeys, hs, hk, hv, hrec]

/-- With a certificate that parses, `validateResults` returns what the loop returns. -/
theorem validateResults_eq_verifyKeys (env : GoEnv) (rs : List TaskRunResult)
    (svid : TaskRunResult) (block : PemBlock) (cert : Certificate)
    (hsvid : (buildResultMap rs).get? "SVID" = some svid)
    (hpem : env.pemDecode (toBytes svid.Value) = some block)
    (hcert : env.parseCertificate block.Bytes = .ok cert) :
    validateResults env rs =
      .ret (verifyKeys env cert.PublicKey (buildResultMap rs)
        (env.rangeOrder (buildResultMap rs).keys)) := by
  simp [validateResults, hsvid, hpem, hcert]

/-! ## The signature verification of `tekton.go` -/

/-- C1 (the code departs from the claim). With a result named SVID in the map, a value
that `pem.Decode` cannot decode makes `validateResults` panic on the nil block instead of
returning an error; a block whose bytes `x509.ParseCertificate` rejects makes it return
the error `invalid SVID: ...`. -/
theorem validateResults_invalid_SVID (env : GoEnv) (rs : List TaskRunResult)
    (svid : TaskRunResult) (hsvid : (buildResultMap rs).get? "SVID" = some svid) :
    (env.pemDecode (toBytes svid.Value) = none →
      validateResults env rs = .panic nilDereference) ∧
    (∀ block err, env.pemDecode (toBytes svid.Value) = some block →
      env.parseCertificate block.Bytes = .error err →
      validateResults env rs = .ret (some ("invalid SVID: " ++ err))) := by
  constructor
  · intro hpem
    simp [validateResults, hsvid, hpem]
  · intro block err hpem hcert
    simp [validateResults, hsvid, hpem, hcert]

theorem validateResults_invalid_SVID_witness :
    validateResults sampleEnv [⟨"SVID", "not a certificate"⟩] = .panic nilDereference ∧
    validateResults sampleEnv [⟨"SVID", "-not a certificate"⟩]
      = .ret (some "invalid SVID: x509: malformed certificate") :=
  ⟨(validateResults_invalid_SVID sampleEnv [⟨"SVID", "not a certificate"⟩]
      ⟨"SVID", "not a certificate"⟩ (by decide)).1 (by decide),
   (validateResults_invalid_SVID sampleEnv [⟨"SVID", "-not a certificate"⟩]
      ⟨"SVID", "-not a certificate"⟩ (by decide)).2
      ⟨"CERTIFICATE", toBytes "not a certificate"⟩ "x509: malformed certificate"
      (by decide) rfl⟩

/-- C2. When the SVID result parses to a certificate with public key `pub`,
`validateResults` returns nil if and only if `verifyOne pub K` returns nil for every
result name `K` that is neither SVID nor ends in `.sig`; and when some such `K` fails,
`validateResults` returns an error. -/
theorem validateResults_succeeds_iff (env : GoEnv) (rs : List TaskRunResult)
    (svid : TaskRunResult) (block : PemBlock) (cert : Certificate)
    (hsvid : (buildResultMap rs).get? "SVID" = some svid)
    (hpem : env.pemDecode (toBytes svid.Value) = some block)
    (hcert : env.parseCertificate block.Bytes = .ok cert) :
    (validateResults env rs = .ret none ↔
      ∀ r ∈ rs, r.Name ≠ "SVID" → HasSuffix r.Name ".sig" = false →
        verifyOne env cert.PublicKey r.Name (buildResultMap rs) = none) ∧
    ((∃ r ∈ rs, r.Name ≠ "SVID" ∧ HasSuffix r.Name ".sig" = false ∧
        verifyOne env cert.PublicKey r.Name (buildResultMap rs) ≠ none) →
      ∃ err, validateResults env rs = .ret (some err)) := by
  have hall : verifyKeys env cert.PublicKey (buildResultMap rs)
      (env.rangeOrder (buildResultMap rs).keys) = none ↔
      ∀ r ∈ rs, r.Name ≠ "SVID" → HasSuffix r.Name ".sig" = false →
        verifyOne env cert.PublicKey r.Name (buildResultMap rs) = none := by
    rw [verifyKeys_eq_none_iff]
    constructor
    · intro h r hr
      exact h r.Name ((mem_rangeOrder_keys env rs r.Name).mpr ⟨r, hr, rfl⟩)
    · intro h k hk
      obtain ⟨r, hr, rfl⟩ := (mem_rangeOrder_keys env rs k).mp hk
      exact h r hr
  rw [validateResults_eq_verifyKeys env rs svid block cert hsvid hpem hcert]
  constructor
  · rw [← hall]
    constructor
    · intro h
      injection h
    · intro h
      rw [h]
  · rintro ⟨r, hr, hne, hsuf, hfail⟩
    cases hv : verifyKeys env cert.PublicKey (buildResultMap rs)
        (env.rangeOrder (buildResultMap rs).keys) with
    | none => exact absurd (hall.mp hv r hr hne hsuf) hfail
    | some err => exact ⟨err, rfl⟩

theorem validateResults_succeeds_iff_witness :
    (validateResults sampleEnv [⟨"SVID", "-E"⟩, ⟨"X", "v"⟩, ⟨"X.sig", "v"⟩] = .ret none ↔
      ∀ r ∈ [(⟨"SVID", "-E"⟩ : TaskRunResult), ⟨"X", "v"⟩, ⟨"X.sig", "v"⟩],
        r.Name ≠ "SVID" → HasSuffix r.Name ".sig" = false →
        verifyOne sampleEnv (.ecdsa []) r.Name
          (buildResultMap [⟨"SVID", "-E"⟩, ⟨"X", "v"⟩, ⟨"X.sig", "v"⟩]) = none) :=
  (validateResults_succeeds_iff sampleEnv [⟨"SVID", "-E"⟩, ⟨"X", "v"⟩, ⟨"X.sig", "v"⟩]
    ⟨"SVID", "-E"⟩ ⟨"CERTIFICATE", toBytes "E"⟩ ⟨.ecdsa []⟩
    (by decide) (by decide) rfl).1

/-- C3. A result list with no result named SVID passes `validateResults`, whatever its
other results are. -/
theorem validateResults_without_SVID (env : GoEnv) (rs : List TaskRunResult)
    (h : ∀ r ∈ rs, r.Name ≠ "SVID") : validateResults env rs = .ret none := by
  have hnone : (buildResultMap rs).get? "SVID" = none := by
    rw [GoMap.get?_eq_none_iff, mem_keys_buildResultMap]
    rintro ⟨r, hr, hname⟩
    exact h r hr hname
  simp [validateResults, hnone]

theorem validateResults_without_SVID_witness :
    validateResults sampleEnv [⟨"IMAGE_DIGEST", "sha256:abcd"⟩, ⟨"X.sig", "!not base64"⟩]
      = .ret none :=
  validateResults_without_SVID sampleEnv
    [⟨"IMAGE_DIGEST", "sha256:abcd"⟩, ⟨"X.sig", "!not base64"⟩] (by decide)

/-- C4. With a certificate that parses and a result `K` (not SVID, not ending in `.sig`)
for which no result named `K.sig` exists, `validateResults` returns an error; when `K` is
the only result that fails its check, the error is `no signature found for K`. -/
theorem validateResults_missing_signature (env : GoEnv) (rs : List TaskRunResult)
    (svid : TaskRunResult) (block : PemBlock) (cert : Certificate) (K : String)
    (hsvid : (buildResultMap rs).get? "SVID" = some svid)
    (hpem : env.pemDecode (toBytes svid.Value) = some block)
    (hcert : env.parseCertificate block.Bytes = .ok cert)
    (hK : ∃ r ∈ rs, r.Name = K) (hne : K ≠ "SVID") (hsuf : HasSuffix K ".sig" = false)
    (hnosig : ∀ r ∈ rs, r.Name ≠ K ++ ".sig") :
    (∃ err, validateResults env rs = .ret (some err)) ∧
    ((∀ r ∈ rs, r.Name ≠ K → r.Name ≠ "SVID" → HasSuffix r.Name ".sig" = false →
        verifyOne env cert.PublicKey r.Name (buildResultMap rs) = none) →
      validateResults env rs = .ret (some ("no signature found for " ++ K))) := by
  have hget : (buildResultMap rs).get? (K ++ ".sig") = none := by
    rw [GoMap.get?_eq_none_iff, mem_keys_buildResultMap]
    rintro ⟨r, hr, hname⟩
    exact hnosig r hr hname
  have hfail : verifyOne env cert.PublicKey K (buildResultMap rs)
      = some ("no signature found for " ++ K) := by
    simp [verifyOne, hget]
  have hmem : K ∈ env.rangeOrder (buildResultMap rs).keys :=
    (mem_rangeOrder_keys env rs K).mpr hK
  rw [validateResults_eq_verifyKeys env rs svid block cert hsvid hpem hcert]
  constructor
  · cases hv : verifyKeys env cert.PublicKey (buildResultMap rs)
        (env.rangeOrder (buildResultMap rs).keys) with
    | none =>
      have := (verifyKeys_eq_none_iff env cert.PublicKey _ _).mp hv K hmem hne hsuf
      rw [hfail] at this
      exact absurd this (by simp)
    | some err => exact ⟨err, rfl⟩
  · intro hothers
    congr 1
    apply verifyKeys_eq_of_only_failure env cert.PublicKey _ _ K _ hmem hne hsuf hfail
    intro k hk hkK hkS hks
    obtain ⟨r, hr, rfl⟩ := (mem_rangeOrder_keys env rs k).mp hk
    exact hothers r hr hkK hkS hks

theorem validateResults_missing_signature_witness :
    validateResults sampleEnv [⟨"SVID", "-E"⟩, ⟨"X", "v"⟩, ⟨"Y", "w"⟩, ⟨"Y.sig", "w"⟩]
      = .ret (some "no signature found for X") :=
  (validateResults_missing_signature sampleEnv
    [⟨"SVID", "-E"⟩, ⟨"X", "v"⟩, ⟨"Y", "w"⟩, ⟨"Y.sig", "w"⟩]
    ⟨"SVID", "-E"⟩ ⟨"CERTIFICATE", toBytes "E"⟩ ⟨.ecdsa []⟩ "X"
    (by decide) (by decide) rfl (by decide) (by decide) (by decide) (by decide)).2
    (by decide)

/-- C5. For a key `K` whose `K.sig` exists and base64-decodes to `sig`, `verifyOne`
dispatches on the type of the public key: an ECDSA key passes exactly when
`ecdsa.VerifyASN1` accepts the SHA-256 digest of the value of `K`; an RSA key exactly
when `rsa.VerifyPKCS1v15` with `crypto.SHA256` accepts that digest; an Ed25519 key exactly
when `ed25519.Verify` accepts the raw bytes of the value; any other key type fails with
the error `unsupported key type`. The value of `K` is `results[K].Value`, the empty
string when the map has no `K`. -/
theorem verifyOne_dispatch (env : GoEnv) (K : String) (results : GoMap TaskRunResult)
    (signature : TaskRunResult) (sig : Bytes)
    (hsig : results.get? (K ++ ".sig") = some signature)
    (hdec : env.base64Decode signature.Value = .ok sig) :
    (∀ t, verifyOne env (.ecdsa t) K results = none ↔
      env.ecdsaVerifyASN1 t
        (env.sum256 (toBytes ((results.get? K).getD {}).Value)) sig = true) ∧
    (∀ t, verifyOne env (.rsa t) K results = none ↔
      env.rsaVerifyPKCS1v15 t CryptoHash.SHA256
        (env.sum256 (toBytes ((results.get? K).getD {}).Value)) sig = none) ∧
    (∀ t, verifyOne env (.ed25519 t) K results = none ↔
      env.ed25519Verify t (toBytes ((results.get? K).getD {}).Value) sig = true) ∧
    (∀ t, verifyOne env (.other t) K results = some ("unsupported key type: " ++ t)) := by
  refine ⟨?_, ?_, ?_, ?_⟩
  · intro t
    cases hv : env.ecdsaVerifyASN1 t
      (env.sum256 (toBytes ((results.get? K).getD {}).Value)) sig <;>
      simp [verifyOne, hsig, hdec, hv]
  · intro t
    simp [verifyOne, hsig, hdec]
  · intro t
    cases hv : env.ed25519Verify t (toBytes ((results.get? K).getD {}).Value) sig <;>
      simp [verifyOne, hsig, hdec, hv]
  · intro t
    simp [verifyOne, hsig, hdec]

theorem verifyOne_dispatch_witness :
    verifyOne sampleEnv (.other "%!s(<nil>)") "X" [("X", ⟨"X", "v"⟩), ("X.sig", ⟨"X.sig", "v"⟩)]
      = some "unsupported key type: %!s(<nil>)" ∧
    (verifyOne sampleEnv (.ed25519 []) "X" [("X", ⟨"X", "v"⟩), ("X.sig", ⟨"X.sig", "v"⟩)]
      = none ↔
      sampleEnv.ed25519Verify [] (toBytes "v") (toBytes "v") = true) :=
  ⟨(verifyOne_dispatch sampleEnv "X" [("X", ⟨"X", "v"⟩), ("X.sig", ⟨"X.sig", "v"⟩)]
      ⟨"X.sig", "v"⟩ (toBytes "v") (by decide) rfl).2.2.2 "%!s(<nil>)",
   (verifyOne_dispatch sampleEnv "X" [("X", ⟨"X", "v"⟩), ("X.sig", ⟨"X.sig", "v"⟩)]
      ⟨"X.sig", "v"⟩ (toBytes "v") (by decide) rfl).2.2.1 []⟩

/-- C6 (the code departs from the claim). For a key `K` whose `K.sig` exists, the error
that `verifyOne` returns for a signature that is not base64 is `invalid signature: `
followed by the decoder's error, and the error for a rejected signature is the constant
`invalid signature` (ECDSA, Ed25519) or the error of `rsa.VerifyPKCS1v15`: none of them
is built from `K`. -/
theorem verifyOne_error_without_key (env : GoEnv) (K : String)
    (results : GoMap TaskRunResult) (signature : TaskRunResult)
    (hsig : results.get? (K ++ ".sig") = some signature) :
    (∀ pub err, env.base64Decode signature.Value = .error err →
      verifyOne env pub K results = some ("invalid signature: " ++ err)) ∧
    (∀ sig t, env.base64Decode signature.Value = .ok sig →
      env.ecdsaVerifyASN1 t
        (env.sum256 (toBytes ((results.get? K).getD {}).Value)) sig = false →
      verifyOne env (.ecdsa t) K results = some "invalid signature") ∧
    (∀ sig t, env.base64Decode signature.Value = .ok sig →
      verifyOne env (.rsa t) K results =
        env.rsaVerifyPKCS1v15 t CryptoHash.SHA256
          (env.sum256 (toBytes ((results.get? K).getD {}).Value)) sig) ∧
    (∀ sig t, env.base64Decode signature.Value = .ok sig →
      env.ed25519Verify t (toBytes ((results.get? K).getD {}).Value) sig = false →
      verifyOne env (.ed25519 t) K results = some "invalid signature") := by
  refine ⟨?_, ?_, ?_, ?_⟩
  · intro pub err hdec
    simp [verifyOne, hsig, hdec]
  · intro sig t hdec hv
    simp [verifyOne, hsig, hdec, hv]
  · intro sig t hdec
    simp [verifyOne, hsig, hdec]
  · intro sig t hdec hv
    simp [verifyOne, hsig, hdec, hv]

theorem verifyOne_error_without_key_witness :
    verifyOne sampleEnv (.ecdsa []) "X" [("X", ⟨"X", "v"⟩), ("X.sig", ⟨"X.sig", "!v"⟩)]
      = some "invalid signature: illegal base64 data at input byte 0" ∧
    verifyOne sampleEnv (.ecdsa []) "X" [("X", ⟨"X", "v"⟩), ("X.sig", ⟨"X.sig", "dw=="⟩)]
      = some "invalid signature" :=
  ⟨(verifyOne_error_without_key sampleEnv "X"
      [("X", ⟨"X", "v"⟩), ("X.sig", ⟨"X.sig", "!v"⟩)] ⟨"X.sig", "!v"⟩ (by decide)).1
      (.ecdsa []) "illegal base64 data at input byte 0" rfl,
   (verifyOne_error_without_key sampleEnv "X"
      [("X", ⟨"X", "v"⟩), ("X.sig", ⟨"X.sig", "dw=="⟩)] ⟨"X.sig", "dw=="⟩ (by decide)).2.1
      (toBytes "dw==") [] rfl (by decide)⟩

/-- C7. For a TaskRun `tr`, `CreatePayload` returns `tr.Status` and a nil error when
`validateResults` returns nil on the results of `tr`, and a nil payload with an error
(the wrapped verification error) when `validateResults` returns an error; for an input
that is not a TaskRun it returns a nil payload and the error `unsupported type`. In the
one remaining case, a panic of `validateResults`, `CreatePayload` panics too. -/
theorem CreatePayload_passthrough (env : GoEnv) :
    (∀ tr, validateResults env tr.Status.TaskRunResults = .ret none →
      CreatePayload env (.taskRun tr) = .ret (some tr.Status, none)) ∧
    (∀ tr err, validateResults env tr.Status.TaskRunResults = .ret (some err) →
      CreatePayload env (.taskRun tr) =
        .ret (none, some (Wrap (Wrap err "validating results") "verifying spire"))) ∧
    (∀ obj, (∀ tr, obj ≠ .taskRun tr) →
      CreatePayload env obj = .ret (none, some ("unsupported type " ++ obj.render))) ∧
    (∀ tr msg, validateResults env tr.Status.TaskRunResults = .panic msg →
      CreatePayload env (.taskRun tr) = .panic msg) := by
  refine ⟨?_, ?_, ?_, ?_⟩
  · intro tr h
    simp [CreatePayload, verifySpire, h]
  · intro tr err h
    simp [CreatePayload, verifySpire, h]
  · intro obj h
    cases obj with
    | taskRun tr => exact absurd rfl (h tr)
    | str s => rfl
    | other rendered => rfl
  · intro tr msg h
    simp [CreatePayload, verifySpire, h]

theorem CreatePayload_passthrough_witness :
    CreatePayload sampleEnv
        (.taskRun { Status := { TaskRunResults := [⟨"SVID", "-E"⟩, ⟨"X", "v"⟩, ⟨"X.sig", "v"⟩] } })
      = .ret (some { TaskRunResults := [⟨"SVID", "-E"⟩, ⟨"X", "v"⟩, ⟨"X.sig", "v"⟩] }, none) ∧
    CreatePayload sampleEnv
        (.taskRun { Status := { TaskRunResults := [⟨"SVID", "-E"⟩, ⟨"X", "v"⟩] } })
      = .ret (none, some "verifying spire: validating results: no signature found for X") ∧
    CreatePayload sampleEnv (.str "not a task run")
      = .ret (none, some "unsupported type not a task run") :=
  ⟨(CreatePayload_passthrough sampleEnv).1
      { Status := { TaskRunResults := [⟨"SVID", "-E"⟩, ⟨"X", "v"⟩, ⟨"X.sig", "v"⟩] } }
      (by decide),
   (CreatePayload_passthrough sampleEnv).2.1
      { Status := { TaskRunResults := [⟨"SVID", "-E"⟩, ⟨"X", "v"⟩] } }
      "no signature found for X" (by decide),
   (CreatePayload_passthrough sampleEnv).2.2.1 (.str "not a task run")
      (fun _ h => Obj.noConfusion h)⟩

end Tekton

/-! ## The git material of `intotoite6.go` -/

namespace InTotoIte6

/-- The commit stays what it was when no parameter is named `CHAINS-GIT_COMMIT`. -/
theorem foldl_gitInfoStep_commit (ps : List Param) (acc : String × String)
    (h : ∀ p ∈ ps, p.Name ≠ commitParam) : (ps.foldl gitInfoStep acc).1 = acc.1 := by
  induction ps generalizing acc with
  | nil => rfl
  | cons p rest ih =>
    have hp : p.Name ≠ commitParam := h p (List.mem_cons_self _ _)
    rw [List.foldl_cons, ih _ (fun q hq => h q (List.mem_cons_of_mem _ hq))]
    unfold gitInfoStep
    rw [if_neg hp]
    split <;> rfl

/-- The URL stays what it was when no parameter is named `CHAINS-GIT_URL`. -/
theorem foldl_gitInfoStep_url (ps : List Param) (acc : String × String)
    (h : ∀ p ∈ ps, p.Name ≠ urlParam) : (ps.foldl gitInfoStep acc).2 = acc.2 := by
  induction ps generalizing acc with
  | nil => rfl
  | cons p rest ih =>
    have hp : p.Name ≠ urlParam := h p (List.mem_cons_self _ _)
    rw [List.foldl_cons, ih _ (fun q hq => h q (List.mem_cons_of_mem _ hq))]
    unfold gitInfoStep
    rw [if_neg hp]
    split <;> rfl

/-- What `materials` returns, in terms of the pair that `gitInfo` returns. -/
theorem materials_eq (tr : TaskRun) :
    materials tr =
      if (gitInfo tr).1 ≠ "" ∧ (gitInfo tr).2 ≠ "" then
        [{ URI := (gitInfo tr).2, Digest := [("git_commit", (gitInfo tr).1)] }]
      else [] := by
  unfold materials
  rcases gitInfo tr with ⟨c, u⟩
  by_cases h : c ≠ "" ∧ u ≠ ""
  · simp only [h, if_true, and_self, ne_eq, not_false_eq_true]
    rfl
  · simp only [if_neg h]
    rfl

theorem HasPrefix_git_append (u : String) : HasPrefix ("git+" ++ u) "git+" = true := by
  simp [HasPrefix, String.data_append, List.isPrefixOf]

/-- C8 (the code departs from the claim). A `CHAINS-GIT_URL` parameter with an empty value
and a non-empty commit make `materials` emit one material, with URI `git+`: the URL is
normalised before it is compared with the empty string. An empty commit with a non-empty
URL emits none. -/
theorem materials_empty_URL :
    materials { Spec := { Params := [⟨"CHAINS-GIT_COMMIT", { StringVal := "abcd" }⟩,
        ⟨"CHAINS-GIT_URL", { StringVal := "" }⟩] } }
      = [{ URI := "git+", Digest := [("git_commit", "abcd")] }] ∧
    materials { Spec := { Params := [⟨"CHAINS-GIT_COMMIT", { StringVal := "" }⟩,
        ⟨"CHAINS-GIT_URL", { StringVal := "https://git.test.com" }⟩] } }
      = [] := by
  constructor <;> decide

/-- C9. When the parameters contain `CHAINS-GIT_COMMIT` but no `CHAINS-GIT_URL`, or
`CHAINS-GIT_URL` but no `CHAINS-GIT_COMMIT`, or neither, `materials` returns the empty
list. -/
theorem materials_incomplete_git_params (tr : TaskRun)
    (h : ((∃ p ∈ tr.Spec.Params, p.Name = commitParam) ∧
            ∀ p ∈ tr.Spec.Params, p.Name ≠ urlParam) ∨
         ((∃ p ∈ tr.Spec.Params, p.Name = urlParam) ∧
            ∀ p ∈ tr.Spec.Params, p.Name ≠ commitParam) ∨
         ((∀ p ∈ tr.Spec.Params, p.Name ≠ commitParam) ∧
            ∀ p ∈ tr.Spec.Params, p.Name ≠ urlParam)) :
    materials tr = [] := by
  rw [materials_eq]
  have hcases : (∀ p ∈ tr.Spec.Params, p.Name ≠ urlParam) ∨
      (∀ p ∈ tr.Spec.Params, p.Name ≠ commitParam) := by
    rcases h with ⟨_, h⟩ | ⟨_, h⟩ | ⟨h, _⟩
    · exact Or.inl h
    · exact Or.inr h
    · exact Or.inr h
  rcases hcases with hu | hc
  · have : (gitInfo tr).2 = "" := foldl_gitInfoStep_url _ _ hu
    simp [this]
  · have : (gitInfo tr).1 = "" := foldl_gitInfoStep_commit _ _ hc
    simp [this]

theorem materials_incomplete_git_params_witness :
    materials { Spec := { Params := [⟨"IMAGE", { StringVal := "test.io/test/image" }⟩,
      ⟨"CHAINS-GIT_COMMIT", { StringVal := "abcd" }⟩] } } = [] :=
  materials_incomplete_git_params _ (Or.inl ⟨by decide, by decide⟩)

/-- C10. The normalisation of the URL in `gitInfo` yields a URL that starts with `git+`,
leaves a URL that starts with `git+` unchanged, prepends `git+` to any other URL, and is
idempotent; it is what `gitInfo` returns for the value of a `CHAINS-GIT_URL` parameter. -/
theorem normalizeURL_idempotent (u : String) :
    HasPrefix (normalizeURL u) "git+" = true ∧
    (HasPrefix u "git+" = true → normalizeURL u = u) ∧
    (HasPrefix u "git+" = false → normalizeURL u = "git+" ++ u) ∧
    normalizeURL (normalizeURL u) = normalizeURL u ∧
    (gitInfo { Spec := { Params := [⟨urlParam, { StringVal := u }⟩] } }).2
      = normalizeURL u := by
  have hstart : HasPrefix (normalizeURL u) "git+" = true := by
    unfold normalizeURL
    by_cases h : HasPrefix u "git+" = true
    · simp [h]
    · simp [h, HasPrefix_git_append]
  refine ⟨hstart, ?_, ?_, ?_, ?_⟩
  · intro h
    simp [normalizeURL, h]
  · intro h
    simp [normalizeURL, h]
  · generalize normalizeURL u = v at hstart
    simp [normalizeURL, hstart]
  · have hne : urlParam ≠ commitParam := by decide
    simp [gitInfo, gitInfoStep, hne]

theorem normalizeURL_idempotent_witness :
    normalizeURL "git+https://git.test.com" = "git+https://git.test.com" ∧
    normalizeURL "https://git.test.com" = "git+" ++ "https://git.test.com" :=
  ⟨(normalizeURL_idempotent "git+https://git.test.com").2.1 (by decide),
   (normalizeURL_idempotent "https://git.test.com").2.2.1 (by decide)⟩

/-! ## The statement of `intotoite6.go` -/

/-- The loop of `recipe` appends the entries of the steps to what it has so far. -/
theorem foldl_recipeStep (ss : List RecipeStep) (acc : List Step) :
    ss.foldl recipeStep acc = acc ++ ss.filterMap specEnvironmentEntry := by
  induction ss generalizing acc with
  | nil => simp
  | cons s rest ih =>
    rw [List.foldl_cons, ih]
    cases hs : s.Environment with
    | mapping env => simp [recipeStep, specEnvironmentEntry, hs, List.filterMap_cons]
    | notMapping v => simp [recipeStep, specEnvironmentEntry, hs, List.filterMap_cons]

/-- C11 (the code departs from the claim). The composite literal that `recipe` returns
does not set `EntryPoint`: for every TaskRun the statement that `CreatePayload` returns
has the empty string as `Predicate.Recipe.EntryPoint`, which is not the name of the
TaskRun unless that name is empty. -/
theorem CreatePayload_entryPoint_empty (pk : Packages) (i : InTotoIte6) (tr : TaskRun) :
    ∃ stmt, CreatePayload pk i (.taskRun tr) = .ret (some stmt, none) ∧
      stmt.Predicate.Recipe.EntryPoint = "" ∧
      (tr.Name ≠ "" → stmt.Predicate.Recipe.EntryPoint ≠ tr.Name) := by
  refine ⟨_, rfl, rfl, ?_⟩
  intro hname heq
  exact hname heq.symm

theorem CreatePayload_entryPoint_empty_witness :
    ∃ stmt, CreatePayload samplePackages { builderID := "testid" }
        (.taskRun { Name := "build-1", Spec := { TaskRef := none } })
      = .ret (some stmt, none) ∧
      stmt.Predicate.Recipe.EntryPoint = "" ∧ stmt.Predicate.Recipe.EntryPoint ≠ "build-1" :=
  match CreatePayload_entryPoint_empty samplePackages { builderID := "testid" }
      { Name := "build-1", Spec := { TaskRef := none } } with
  | ⟨stmt, hret, hempty, hne⟩ => ⟨stmt, hret, hempty, hne (by decide)⟩

/-- C12. For every list of steps, the environment list of the recipe holds, in the
original order, one entry for each step whose environment is a name-to-value mapping,
made of `env["container"]`, `env["image"]` and the entry point of the step; the other
steps are left out, so the list is never longer than the list of steps. -/
theorem recipe_environment (ss : List RecipeStep) :
    recipeSteps ss = ss.filterMap specEnvironmentEntry ∧
    (recipeSteps ss).length ≤ ss.length ∧
    (∀ pk tr, pk.Steps tr = ss →
      (recipe pk tr).Environment = ss.filterMap specEnvironmentEntry) := by
  have h : recipeSteps ss = ss.filterMap specEnvironmentEntry := by
    simp [recipeSteps, foldl_recipeStep]
  refine ⟨h, ?_, ?_⟩
  · rw [h]
    exact List.length_filterMap_le _ _
  · intro pk tr hsteps
    simp [recipe, hsteps, h]

theorem recipe_environment_witness :
    (recipe samplePackages
        { Status := { Steps := [{ Name := "step1", ImageID := "gcr.io/test1/test1" }] } }).Environment
      = [{ Container := .str "step1", Image := .str "gcr.io/test1/test1", Entrypoint := "" }] :=
  (recipe_environment
    [{ EntryPoint := "",
       Environment := .mapping [("container", .str "step1"),
         ("image", .str "gcr.io/test1/test1")] }]).2.2
    samplePackages
    { Status := { Steps := [{ Name := "step1", ImageID := "gcr.io/test1/test1" }] } } rfl

/-- C13. For an input that is not a TaskRun, `CreatePayload` returns a nil payload and
the error `intoto does not support type: ` followed by the `%s` rendering of the input,
which for a string is the string itself. -/
theorem CreatePayload_unsupported (pk : Packages) (i : InTotoIte6) :
    (∀ obj, (∀ tr, obj ≠ .taskRun tr) →
      CreatePayload pk i obj =
        .ret (none, some ("intoto does not support type: " ++ obj.render))) ∧
    (∀ s, CreatePayload pk i (.str s) =
      .ret (none, some ("intoto does not support type: " ++ s))) := by
  constructor
  · intro obj h
    cases obj with
    | taskRun tr => exact absurd rfl (h tr)
    | str s => rfl
    | other rendered => rfl
  · intro s
    rfl

theorem CreatePayload_unsupported_witness :
    CreatePayload samplePackages { builderID := "testid" } (.str "not a task ref")
      = .ret (none, some "intoto does not support type: not a task ref") :=
  (CreatePayload_unsupported samplePackages { builderID := "testid" }).1
    (.str "not a task ref") (fun _ h => Obj.noConfusion h)

/-- C14. For every TaskRun, `CreatePayload` returns a statement and a nil error; its
subjects and materials are what the extractors return, empty or not, and a TaskRun with
no git parameter gives a statement with no material. -/
theorem CreatePayload_always_builds (pk : Packages) (i : InTotoIte6) (tr : TaskRun) :
    ∃ stmt, CreatePayload pk i (.taskRun tr) = .ret (some stmt, none) ∧
      stmt.StatementHeader.Subject = pk.GetSubjectDigests tr ∧
      stmt.Predicate.Materials = materials tr ∧
      ((∀ p ∈ tr.Spec.Params, p.Name ≠ commitParam ∧ p.Name ≠ urlParam) →
        stmt.Predicate.Materials = []) := by
  refine ⟨_, rfl, rfl, rfl, ?_⟩
  intro h
  show materials tr = []
  have hc : (gitInfo tr).1 = "" := foldl_gitInfoStep_commit _ _ (fun p hp => (h p hp).1)
  rw [materials_eq]
  simp [hc]

theorem CreatePayload_always_builds_witness :
    ∃ stmt, CreatePayload samplePackages { builderID := "test_builder-2" }
        (.taskRun { Spec := { Params := [⟨"IMAGE", { StringVal := "test.io/test/image" }⟩] } })
      = .ret (some stmt, none) ∧ stmt.Predicate.Materials = [] :=
  match CreatePayload_always_builds samplePackages { builderID := "test_builder-2" }
      { Spec := { Params := [⟨"IMAGE", { StringVal := "test.io/test/image" }⟩] } } with
  | ⟨stmt, hret, _, _, hnone⟩ => ⟨stmt, hret, hnone (by decide)⟩

/-- C15. For every TaskRun and every configured builder ID, the statement that
`CreatePayload` returns has that builder ID, the statement type and the predicate type
of in-toto, and the recipe type `https://tekton.dev/attestations/chains@v1`. -/
theorem CreatePayload_constants (pk : Packages) (cfg : Config) (tr : TaskRun) :
    (NewFormatter cfg).2 = none ∧
    ∃ stmt, CreatePayload pk (NewFormatter cfg).1 (.taskRun tr) = .ret (some stmt, none) ∧
      stmt.Predicate.Builder.ID = cfg.Builder.ID ∧
      stmt.StatementHeader.StatementType = pk.StatementInTotoV01 ∧
      stmt.StatementHeader.PredicateType = pk.PredicateSLSAProvenanceV01 ∧
      stmt.Predicate.Recipe.RecipeType = "https://tekton.dev/attestations/chains@v1" :=
  ⟨rfl, _, rfl, rfl, rfl, rfl, rfl⟩

/-- C16. For every TaskRun, `metadata` returns a record (never the nil pointer) whose
`BuildStartedOn` is the start time of the TaskRun, absent exactly when the start time
is absent, and whose `BuildFinishedOn` is the completion time, absent exactly when the
completion time is absent. -/
theorem metadata_timestamps (tr : TaskRun) :
    ∃ m, metadata tr = some m ∧
      m.BuildStartedOn = tr.Status.StartTime ∧
      m.BuildFinishedOn = tr.Status.CompletionTime ∧
      (m.BuildStartedOn = none ↔ tr.Status.StartTime = none) ∧
      (m.BuildFinishedOn = none ↔ tr.Status.CompletionTime = none) := by
  have h : ∃ m, metadata tr = some m ∧ m.BuildStartedOn = tr.Status.StartTime ∧
      m.BuildFinishedOn = tr.Status.CompletionTime := by
    unfold metadata
    cases tr.Status.StartTime <;> cases tr.Status.CompletionTime <;> exact ⟨_, rfl, rfl, rfl⟩
  obtain ⟨m, hm, hs, hf⟩ := h
  exact ⟨m, hm, hs, hf, by rw [hs], by rw [hf]⟩

/-- C17. Every material that `materials` returns has a digest map that is not empty: it
holds the key `git_commit` with a value that is not the empty string. -/
theorem materials_digest_nonempty (tr : TaskRun) :
    ∀ m ∈ materials tr, m.Digest ≠ [] ∧
      ∃ commit, m.Digest.get? "git_commit" = some commit ∧ commit ≠ "" := by
  intro m hm
  rw [materials_eq] at hm
  by_cases h : (gitInfo tr).1 ≠ "" ∧ (gitInfo tr).2 ≠ ""
  · rw [if_pos h, List.mem_singleton] at hm
    subst hm
    exact ⟨by simp, (gitInfo tr).1, by simp [GoMap.get?], h.1⟩
  · rw [if_neg h] at hm
    simp at hm

theorem materials_digest_nonempty_witness :
    ({ URI := "git+https://git.test.com", Digest := [("git_commit", "abcd")] } :
        ProvenanceMaterial).Digest ≠ [] ∧
      ∃ commit, GoMap.get? [("git_commit", "abcd")] "git_commit" = some commit ∧ commit ≠ "" :=
  materials_digest_nonempty
    { Spec := { Params := [⟨"CHAINS-GIT_COMMIT", { StringVal := "abcd" }⟩,
        ⟨"CHAINS-GIT_URL", { StringVal := "https://git.test.com" }⟩] } }
    { URI := "git+https://git.test.com", Digest := [("git_commit", "abcd")] } (by decide)

/-- Inserting `x` adds `x` and nothing else. -/
theorem mem_insertSorted {α : Type} (less : α → α → Bool) (x y : α) (l : List α) :
    y ∈ insertSorted less x l ↔ y = x ∨ y ∈ l := by
  induction l with
  | nil => simp [insertSorted]
  | cons a rest ih =>
    unfold insertSorted
    split
    · simp [ih]; tauto
    · simp

/-- Inserting into a slice sorted by decreasing key keeps it sorted. -/
theorem pairwise_insertSorted {α : Type} (key : α → String) (x : α) (l : List α)
    (h : l.Pairwise (fun a b => key b ≤ key a)) :
    (insertSorted (fun a b => decide (key a ≤ key b)) x l).Pairwise
      (fun a b => key b ≤ key a) := by
  induction l with
  | nil => simp [insertSorted]
  | cons a rest ih =>
    rw [List.pairwise_cons] at h
    unfold insertSorted
    by_cases hx : key x ≤ key a
    · simp only [hx, decide_True, if_true, List.pairwise_cons]
      refine ⟨?_, ih h.2⟩
      intro y hy
      rcases (mem_insertSorted _ x y rest).mp hy with rfl | hy
      · exact hx
      · exact h.1 y hy
    · simp only [hx, decide_False, Bool.false_eq_true, if_false, List.pairwise_cons]
      have hax : key a ≤ key x := le_of_lt (not_le.mp hx)
      refine ⟨?_, h⟩
      intro y hy
      rcases List.mem_cons.mp hy with rfl | hy
      · exact hax
      · exact le_trans (h.1 y hy) hax

/-- With `less` comparing a string key by `<=`, `sort.Slice` returns a slice sorted by
that key. -/
theorem pairwise_sortSlice {α : Type} (key : α → String) (m : List α) :
    (sortSlice (fun a b => decide (key a ≤ key b)) m).Pairwise (fun a b => key a ≤ key b) := by
  have h : ∀ (m acc : List α), acc.Pairwise (fun a b => key b ≤ key a) →
      (m.foldl (fun sortedRev x => insertSorted (fun a b => decide (key a ≤ key b)) x sortedRev)
        acc).Pairwise (fun a b => key b ≤ key a) := by
    intro m
    induction m with
    | nil => intro acc h; exact h
    | cons x rest ih => intro acc h; exact ih _ (pairwise_insertSorted key x acc h)
  unfold sortSlice
  rw [List.pairwise_reverse]
  exact h m [] List.Pairwise.nil
/-- C18. The list that `materials` returns is sorted by URI: of two materials, the one
that comes first has the smaller or equal URI. -/
theorem materials_sorted (tr : TaskRun) :
    (materials tr).Pairwise (fun a b => a.URI ≤ b.URI) := by
  unfold materials
  exact pairwise_sortSlice (fun m : ProvenanceMaterial => m.URI) _

/-- Whatever `sort.Slice` does in the world `w`, `materialsIn` returns what `materials`
returns: the slice it sorts has at most one element. -/
theorem materialsIn_eq_materials {World : Type} (amb : Ambient World) (w : World)
    (tr : TaskRun) : materialsIn amb w tr = materials tr := by
  rw [materials_eq]
  unfold materialsIn
  rcases gitInfo tr with ⟨c, u⟩
  by_cases h : c ≠ "" ∧ u ≠ ""
  · simp only [h, if_true, and_self, ne_eq, not_false_eq_true, List.nil_append]
    exact (amb.sortSlice_perm w _ _).eq_singleton
  · simp only [if_neg h]
    exact (amb.sortSlice_perm w _ _).eq_nil

/-- In a world where the functions of `provenance` answer as those of `pk` do,
`CreatePayloadIn` returns what `CreatePayload` returns. -/
theorem CreatePayloadIn_eq_CreatePayload {World : Type} (amb : Ambient World) (w : World)
    (pk : Packages) (i : InTotoIte6) (obj : Obj)
    (hstmt : amb.StatementInTotoV01 = pk.StatementInTotoV01)
    (hpred : amb.PredicateSLSAProvenanceV01 = pk.PredicateSLSAProvenanceV01)
    (hsub : amb.GetSubjectDigests w = pk.GetSubjectDigests)
    (hsteps : amb.Steps w = pk.Steps) (hparams : amb.Params w = pk.Params) :
    CreatePayloadIn amb w i obj = CreatePayload pk i obj := by
  cases obj with
  | taskRun tr =>
    simp [CreatePayloadIn, CreatePayload, generateAttestationFromTaskRunIn,
      generateAttestationFromTaskRun, recipeIn, recipe, materialsIn_eq_materials,
      hstmt, hpred, hsub, hsteps, hparams]
  | str s => rfl
  | other rendered => rfl

/-- C19. `CreatePayload` is deterministic. Take two calls, in two worlds `w₁` and `w₂`
that may differ in all that a call can observe besides its arguments (the logger, the
state of the process, what the unstable `sort.Slice` does with the slice). When the
formatters have the same builder ID, the TaskRuns are equal and the three functions of
`provenance`, whose source is not part of this development, answer the same in both
worlds for this TaskRun, the two calls return the same statement and the nil error, and
the materials of that statement are those of `materials`, whatever `sort.Slice` did. -/
theorem CreatePayload_deterministic {World : Type} (amb : Ambient World) (w₁ w₂ : World)
    (i₁ i₂ : InTotoIte6) (tr₁ tr₂ : TaskRun)
    (hb : i₁.builderID = i₂.builderID) (htr : tr₁ = tr₂)
    (hsub : amb.GetSubjectDigests w₁ tr₁ = amb.GetSubjectDigests w₂ tr₁)
    (hsteps : amb.Steps w₁ tr₁ = amb.Steps w₂ tr₁)
    (hparams : amb.Params w₁ tr₁ = amb.Params w₂ tr₁) :
    CreatePayloadIn amb w₁ i₁ (.taskRun tr₁) = CreatePayloadIn amb w₂ i₂ (.taskRun tr₂) ∧
    ∃ stmt, CreatePayloadIn amb w₁ i₁ (.taskRun tr₁) = .ret (some stmt, none) ∧
      stmt.Predicate.Materials = materials tr₁ := by
  subst htr
  refine ⟨?_, _, rfl, materialsIn_eq_materials amb w₁ tr₁⟩
  simp [CreatePayloadIn, generateAttestationFromTaskRunIn, recipeIn,
    materialsIn_eq_materials, hb, hsub, hsteps, hparams]

theorem CreatePayload_deterministic_witness :
    CreatePayloadIn sampleAmbient 0
        (NewFormatter { Builder := { ID := "test_builder-1" } }).1
        (.taskRun { Name := "build-1", Spec := { Params :=
          [⟨"CHAINS-GIT_COMMIT", { StringVal := "abcd" }⟩,
           ⟨"CHAINS-GIT_URL", { StringVal := "https://git.test.com" }⟩] } })
      = CreatePayloadIn sampleAmbient 1 { builderID := "test_builder-1" }
        (.taskRun { Name := "build-1", Spec := { Params :=
          [⟨"CHAINS-GIT_COMMIT", { StringVal := "abcd" }⟩,
           ⟨"CHAINS-GIT_URL", { StringVal := "https://git.test.com" }⟩] } }) :=
  (CreatePayload_deterministic sampleAmbient 0 1 _ _ _ _ rfl rfl rfl rfl rfl).1

end InTotoIte6

/-! ## The order of the results and of the map -/

namespace Tekton

/-- The result map holds, for every name, the last result of that name. -/
theorem get?_foldl_set (rs : List TaskRunResult) (m : GoMap TaskRunResult) (k : String) :
    (rs.foldl (fun m r => m.set r.Name r) m).get? k =
      (rs.reverse.find? (fun r => decide (r.Name = k))).or (m.get? k) := by
  induction rs generalizing m with
  | nil => simp
  | cons r rest ih =>
    rw [List.foldl_cons, ih, List.reverse_cons, List.find?_append, GoMap.get?_set]
    cases rest.reverse.find? (fun r => decide (r.Name = k)) with
    | some r' => simp
    | none =>
      by_cases h : r.Name = k <;> simp [List.find?_cons, h]

theorem get?_buildResultMap (rs : List TaskRunResult) (k : String) :
    (buildResultMap rs).get? k = rs.reverse.find? (fun r => decide (r.Name = k)) := by
  rw [buildResultMap, get?_foldl_set]
  simp [GoMap.get?]

/-- Among results of pairwise distinct names, the search for a name finds the result of
that name wherever it stands. -/
theorem find?_name_eq_some_iff (l : List TaskRunResult) (hnd : (l.map (·.Name)).Nodup)
    (k : String) (r : TaskRunResult) :
    l.find? (fun r => decide (r.Name = k)) = some r ↔ r ∈ l ∧ r.Name = k := by
  constructor
  · intro h
    exact ⟨List.mem_of_find?_eq_some h, by simpa using List.find?_some h⟩
  · rintro ⟨hmem, hname⟩
    induction l with
    | nil => simp at hmem
    | cons a rest ih =>
      rw [List.map_cons, List.nodup_cons] at hnd
      rcases List.mem_cons.mp hmem with h | h
      · subst h
        simp [List.find?_cons, hname]
      · have ha : a.Name ≠ k := by
          intro hak
          apply hnd.1
          rw [hak, ← hname]
          exact List.mem_map_of_mem _ h
        simp [List.find?_cons, ha, ih hnd.2 h]

/-- With pairwise distinct names, the result map does not depend on the order of the
results. -/
theorem get?_buildResultMap_perm (rs rs' : List TaskRunResult)
    (hnd : (rs.map (·.Name)).Nodup) (hperm : rs.Perm rs') (k : String) :
    (buildResultMap rs).get? k = (buildResultMap rs').get? k := by
  have hnd' : (rs'.map (·.Name)).Nodup := (hperm.map _).nodup_iff.mp hnd
  have hrev : ∀ l : List TaskRunResult, (l.map (·.Name)).Nodup →
      (l.reverse.map (·.Name)).Nodup := by
    intro l h
    rw [List.map_reverse]
    exact List.nodup_reverse.mpr h
  apply Option.ext
  intro r
  show _ = some r ↔ _ = some r
  rw [get?_buildResultMap, get?_buildResultMap,
    find?_name_eq_some_iff _ (hrev rs hnd), find?_name_eq_some_iff _ (hrev rs' hnd'),
    List.mem_reverse, List.mem_reverse, hperm.mem_iff]

/-- The check of one key reads the map through its lookups only. -/
theorem verifyOne_congr (env : GoEnv) (pub : PublicKey) (K : String)
    (m m' : GoMap TaskRunResult) (h : ∀ k, m.get? k = m'.get? k) :
    verifyOne env pub K m = verifyOne env pub K m' := by
  unfold verifyOne
  rw [h, h]

/-- C20. Whether `validateResults` succeeds does not depend on the order in which the
map is ranged over nor on the order of the results: for results of pairwise distinct
names, any rearrangement of them and any order of `range`, it returns nil on the one
exactly when it returns nil on the other, and panics on the one exactly when it panics
on the other. -/
theorem validateResults_order_independent (env : GoEnv)
    (order : List String → List String) (horder : ∀ ks, (order ks).Perm ks)
    (rs rs' : List TaskRunResult)
    (hnd : (rs.map (·.Name)).Nodup) (hperm : rs.Perm rs') :
    (validateResults env rs = .ret none ↔
      validateResults (env.withRangeOrder order horder) rs' = .ret none) ∧
    (∀ msg, validateResults env rs = .panic msg ↔
      validateResults (env.withRangeOrder order horder) rs' = .panic msg) := by
  have hget := get?_buildResultMap_perm rs rs' hnd hperm
  have hloop : ∀ pub,
      verifyKeys env pub (buildResultMap rs) (env.rangeOrder (buildResultMap rs).keys) = none ↔
      verifyKeys (env.withRangeOrder order horder) pub (buildResultMap rs')
        ((env.withRangeOrder order horder).rangeOrder (buildResultMap rs').keys) = none := by
    intro pub
    rw [verifyKeys_eq_none_iff, verifyKeys_eq_none_iff]
    constructor
    · intro h k hk hne hsuf
      obtain ⟨r, hr, hname⟩ := (mem_rangeOrder_keys _ rs' k).mp hk
      have hk' := (mem_rangeOrder_keys env rs k).mpr ⟨r, hperm.mem_iff.mpr hr, hname⟩
      have := h k hk' hne hsuf
      rw [verifyOne_congr env pub k _ _ hget] at this
      exact this
    · intro h k hk hne hsuf
      obtain ⟨r, hr, hname⟩ := (mem_rangeOrder_keys env rs k).mp hk
      have hk' := (mem_rangeOrder_keys (env.withRangeOrder order horder) rs' k).mpr
        ⟨r, hperm.mem_iff.mp hr, hname⟩
      have := h k hk' hne hsuf
      rw [verifyOne_congr env pub k _ _ hget]
      exact this
  cases h : (buildResultMap rs).get? "SVID" with
  | none =>
    have h' : (buildResultMap rs').get? "SVID" = none := by
      rw [← hget]
      exact h
    simp [validateResults, h, h']
  | some svid =>
    have h' : (buildResultMap rs').get? "SVID" = some svid := by
      rw [← hget]
      exact h
    cases hp : env.pemDecode (toBytes svid.Value) with
    | none => simp [validateResults, h, h', hp, GoEnv.withRangeOrder]
    | some block =>
      cases hc : env.parseCertificate block.Bytes with
      | error err => simp [validateResults, h, h', hp, hc, GoEnv.withRangeOrder]
      | ok cert =>
        have hl := hloop cert.PublicKey
        simp only [GoEnv.withRangeOrder] at hl
        simp [validateResults, h, h', hp, hc, GoEnv.withRangeOrder, hl]

theorem validateResults_order_independent_witness :
    (validateResults sampleEnv [⟨"SVID", "-E"⟩, ⟨"X", "v"⟩, ⟨"X.sig", "v"⟩] = .ret none ↔
      validateResults (sampleEnv.withRangeOrder List.reverse List.reverse_perm)
        [⟨"X.sig", "v"⟩, ⟨"X", "v"⟩, ⟨"SVID", "-E"⟩] = .ret none) :=
  (validateResults_order_independent sampleEnv List.reverse List.reverse_perm
    [⟨"SVID", "-E"⟩, ⟨"X", "v"⟩, ⟨"X.sig", "v"⟩] [⟨"X.sig", "v"⟩, ⟨"X", "v"⟩, ⟨"SVID", "-E"⟩]
    (by decide) (by decide)).1

end Tekton

/-! ## The last occurrence of a reserved parameter -/

namespace InTotoIte6

theorem lastNamed_cons (name : String) (p : Param) (ps : List Param) :
    lastNamed name (p :: ps) =
      (lastNamed name ps).or (if p.Name = name then some p else none) := by
  unfold lastNamed
  rw [List.reverse_cons, List.find?_append]
  by_cases h : p.Name = name <;> simp [List.find?_cons, h]

/-- The commit that the loop of `gitInfo` ends with. -/
theorem foldl_gitInfoStep_fst (ps : List Param) (acc : String × String) :
    (ps.foldl gitInfoStep acc).1 =
      match lastNamed commitParam ps with
      | some p => p.Value.StringVal
      | none => acc.1 := by
  have huc : urlParam ≠ commitParam := by decide
  induction ps generalizing acc with
  | nil => simp [lastNamed]
  | cons p rest ih =>
    rw [List.foldl_cons, ih, lastNamed_cons]
    cases lastNamed commitParam rest with
    | some q => simp
    | none =>
      by_cases h : p.Name = commitParam
      · simp [gitInfoStep, h]
      · by_cases h' : p.Name = urlParam
        · simp [gitInfoStep, h', huc]
        · simp [gitInfoStep, h, h']

/-- The URL that the loop of `gitInfo` ends with. -/
theorem foldl_gitInfoStep_snd (ps : List Param) (acc : String × String) :
    (ps.foldl gitInfoStep acc).2 =
      match lastNamed urlParam ps with
      | some p => normalizeURL p.Value.StringVal
      | none => acc.2 := by
  have huc : urlParam ≠ commitParam := by decide
  have hcu : commitParam ≠ urlParam := by decide
  induction ps generalizing acc with
  | nil => simp [lastNamed]
  | cons p rest ih =>
    rw [List.foldl_cons, ih, lastNamed_cons]
    cases lastNamed urlParam rest with
    | some q => simp
    | none =>
      by_cases h : p.Name = commitParam
      · simp [gitInfoStep, h, hcu]
      · by_cases h' : p.Name = urlParam
        · simp [gitInfoStep, h', huc]
        · simp [gitInfoStep, h, h']

/-- The loop of `gitInfo` passes over a parameter of any other name. -/
theorem foldl_gitInfoStep_filter (ps : List Param) (acc : String × String) :
    (ps.filter (fun p => decide (p.Name = commitParam ∨ p.Name = urlParam))).foldl
        gitInfoStep acc = ps.foldl gitInfoStep acc := by
  induction ps generalizing acc with
  | nil => rfl
  | cons p rest ih =>
    by_cases h : p.Name = commitParam ∨ p.Name = urlParam
    · simp only [List.filter_cons, h, decide_True, if_true, List.foldl_cons, ih]
    · have hstep : gitInfoStep acc p = acc := by
        simp only [not_or] at h
        simp [gitInfoStep, h.1, h.2]
      simp only [List.filter_cons, h, decide_False, Bool.false_eq_true, if_false,
        List.foldl_cons, ih, hstep]

/-- C24. `gitInfo` takes the last occurrence of each reserved parameter: the commit is
the string value of the last parameter named `CHAINS-GIT_COMMIT`, or the empty string
when there is none; the URL is the normalised string value of the last parameter named
`CHAINS-GIT_URL`, or the empty string when there is none; and two TaskRuns with the same
reserved parameters, in the same order, give the same result. -/
theorem gitInfo_last_occurrence (tr : TaskRun) :
    (gitInfo tr).1 =
      (match lastNamed commitParam tr.Spec.Params with
        | some p => p.Value.StringVal
        | none => "") ∧
    (gitInfo tr).2 =
      (match lastNamed urlParam tr.Spec.Params with
        | some p => normalizeURL p.Value.StringVal
        | none => "") ∧
    (∀ tr' : TaskRun,
      tr'.Spec.Params.filter (fun p => decide (p.Name = commitParam ∨ p.Name = urlParam)) =
        tr.Spec.Params.filter (fun p => decide (p.Name = commitParam ∨ p.Name = urlParam)) →
      gitInfo tr' = gitInfo tr) := by
  refine ⟨foldl_gitInfoStep_fst _ _, foldl_gitInfoStep_snd _ _, ?_⟩
  intro tr' h
  unfold gitInfo
  rw [← foldl_gitInfoStep_filter tr'.Spec.Params, ← foldl_gitInfoStep_filter tr.Spec.Params, h]

theorem gitInfo_last_occurrence_witness :
    gitInfo { Spec := { Params := [⟨"CHAINS-GIT_COMMIT", { StringVal := "old" }⟩,
        ⟨"IMAGE", { StringVal := "test.io/test/image" }⟩,
        ⟨"CHAINS-GIT_URL", { StringVal := "https://git.test.com" }⟩,
        ⟨"CHAINS-GIT_COMMIT", { StringVal := "abcd" }⟩] } }
      = gitInfo { Name := "other", Spec := { Params :=
        [⟨"CHAINS-GIT_COMMIT", { StringVal := "old" }⟩,
        ⟨"CHAINS-GIT_URL", { StringVal := "https://git.test.com" }⟩,
        ⟨"filename", { StringVal := "/bin/ls" }⟩,
        ⟨"CHAINS-GIT_COMMIT", { StringVal := "abcd" }⟩] } } :=
  (gitInfo_last_occurrence { Name := "other", Spec := { Params :=
        [⟨"CHAINS-GIT_COMMIT", { StringVal := "old" }⟩,
        ⟨"CHAINS-GIT_URL", { StringVal := "https://git.test.com" }⟩,
        ⟨"filename", { StringVal := "/bin/ls" }⟩,
        ⟨"CHAINS-GIT_COMMIT", { StringVal := "abcd" }⟩] } }).2.2
    { Spec := { Params := [⟨"CHAINS-GIT_COMMIT", { StringVal := "old" }⟩,
        ⟨"IMAGE", { StringVal := "test.io/test/image" }⟩,
        ⟨"CHAINS-GIT_URL", { StringVal := "https://git.test.com" }⟩,
        ⟨"CHAINS-GIT_COMMIT", { StringVal := "abcd" }⟩] } } (by decide)

end InTotoIte6

/-! ## Results that are not checked, and results that occur twice -/

namespace Tekton

theorem isChecked_iff (k : String) :
    isChecked k = true ↔ k ≠ "SVID" ∧ HasSuffix k ".sig" = false := by
  simp [isChecked, and_comm]

theorem HasSuffix_append_sig (N : String) : HasSuffix (N ++ ".sig") ".sig" = true := by
  simp [HasSuffix, String.data_append]

/-- The loop skips the keys that are not checked. -/
theorem verifyKeys_eq_filter (env : GoEnv) (pub : PublicKey) (m : GoMap TaskRunResult)
    (ks : List String) :
    verifyKeys env pub m ks = verifyKeys env pub m (ks.filter isChecked) := by
  induction ks with
  | nil => rfl
  | cons k rest ih =>
    by_cases hs : HasSuffix k ".sig" = true
    · simp [verifyKeys, isChecked, List.filter_cons, hs, ih]
    · by_cases hk : k = "SVID"
      · simp [verifyKeys, isChecked, List.filter_cons, hs, hk, ih]
      · simp [verifyKeys, isChecked, List.filter_cons, hs, hk, ih]

/-- The loop reads the map through the checks of the keys it does not skip. -/
theorem verifyKeys_congr_on (env : GoEnv) (pub : PublicKey) (m m' : GoMap TaskRunResult)
    (ks : List String)
    (h : ∀ k ∈ ks, isChecked k = true → verifyOne env pub k m = verifyOne env pub k m') :
    verifyKeys env pub m ks = verifyKeys env pub m' ks := by
  induction ks with
  | nil => rfl
  | cons k rest ih =>
    have ih' := ih (fun k' hk' => h k' (List.mem_cons_of_mem _ hk'))
    by_cases hs : HasSuffix k ".sig" = true
    · simp [verifyKeys, hs, ih']
    · by_cases hk : k = "SVID"
      · simp [verifyKeys, hs, hk, ih']
      · have hc : isChecked k = true := (isChecked_iff k).mpr ⟨hk, by simpa using hs⟩
        simp [verifyKeys, hs, hk, ih', h k (List.mem_cons_self _ _) hc]

/-- The loop does not depend on the order of `range` of the environment it is given. -/
theorem verifyKeys_withRangeOrder (env : GoEnv) (order : List String → List String)
    (horder : ∀ ks, (order ks).Perm ks) (pub : PublicKey) (m : GoMap TaskRunResult)
    (ks : List String) :
    verifyKeys (env.withRangeOrder order horder) pub m ks = verifyKeys env pub m ks := by
  induction ks with
  | nil => rfl
  | cons k rest ih =>
    have hone : verifyOne (env.withRangeOrder order horder) pub k m = verifyOne env pub k m :=
      rfl
    simp [verifyKeys, ih, hone]

/-- The check of one key reads the map at the key and at its signature only. -/
theorem verifyOne_congr_at (env : GoEnv) (pub : PublicKey) (K : String)
    (m m' : GoMap TaskRunResult) (hsig : m.get? (K ++ ".sig") = m'.get? (K ++ ".sig"))
    (hval : m.get? K = m'.get? K) :
    verifyOne env pub K m = verifyOne env pub K m' := by
  unfold verifyOne
  rw [hsig, hval]

theorem nodup_keys_set {V : Type} (m : GoMap V) (k : String) (v : V)
    (h : m.keys.Nodup) : (m.set k v).keys.Nodup := by
  induction m with
  | nil => simp [GoMap.set, GoMap.keys]
  | cons p rest ih =>
    obtain ⟨k₀, v₀⟩ := p
    have hcons : k₀ ∉ GoMap.keys rest ∧ (GoMap.keys rest).Nodup := by
      simpa [GoMap.keys] using h
    by_cases hk : k₀ = k
    · subst hk
      simpa [GoMap.set, GoMap.keys] using h
    · have hne : ¬ k₀ = k := hk
      have hmem : k₀ ∉ GoMap.keys (GoMap.set rest k v) := by
        rw [GoMap.mem_keys_set]
        rintro (h1 | h1)
        · exact hk h1
        · exact hcons.1 h1
      have hrec := ih hcons.2
      simp only [GoMap.set, hne, if_false]
      show (k₀ :: GoMap.keys (GoMap.set rest k v)).Nodup
      exact List.nodup_cons.mpr ⟨hmem, hrec⟩

/-- The keys of the result map are pairwise distinct. -/
theorem nodup_keys_buildResultMap (rs : List TaskRunResult) :
    (buildResultMap rs).keys.Nodup := by
  have h : ∀ (rs : List TaskRunResult) (m : GoMap TaskRunResult), m.keys.Nodup →
      (rs.foldl (fun m r => m.set r.Name r) m).keys.Nodup := by
    intro rs
    induction rs with
    | nil => intro m hm; exact hm
    | cons r rest ih => intro m hm; exact ih _ (nodup_keys_set m r.Name r hm)
  exact h rs [] (by simp [GoMap.keys])

/-- With a certificate that parses, a result list made of SVID and of signatures only
passes: the loop has no key to check. -/
theorem validateResults_only_signatures (env : GoEnv) (rs : List TaskRunResult)
    (svid : TaskRunResult) (block : PemBlock) (cert : Certificate)
    (hsvid : (buildResultMap rs).get? "SVID" = some svid)
    (hpem : env.pemDecode (toBytes svid.Value) = some block)
    (hcert : env.parseCertificate block.Bytes = .ok cert)
    (hall : ∀ r ∈ rs, r.Name = "SVID" ∨ HasSuffix r.Name ".sig" = true) :
    validateResults env rs = .ret none := by
  rw [validateResults_eq_verifyKeys env rs svid block cert hsvid hpem hcert]
  congr 1
  rw [verifyKeys_eq_none_iff]
  intro k hk hne hsuf
  obtain ⟨r, hr, rfl⟩ := (mem_rangeOrder_keys env rs k).mp hk
  rcases hall r hr with h | h
  · exact absurd h hne
  · rw [h] at hsuf
    exact absurd hsuf (by simp)

theorem missing_ne_unsupported (K rendered : String) :
    "no signature found for " ++ K ≠ "unsupported key type: " ++ rendered := by
  intro h
  have h2 := congrArg String.data h
  rw [String.data_append, String.data_append] at h2
  have h3 := congrArg List.head? h2
  simp [List.head?_append] at h3

theorem invalid_ne_unsupported (err rendered : String) :
    "invalid signature: " ++ err ≠ "unsupported key type: " ++ rendered := by
  intro h
  have h2 := congrArg String.data h
  rw [String.data_append, String.data_append] at h2
  have h3 := congrArg List.head? h2
  simp [List.head?_append] at h3

/-- C23. The type of the public key is examined only after a signature has been found
and decoded. With a certificate that parses and whose key is of an unsupported type,
`validateResults` returns nil when every result is SVID or ends in `.sig`; and for a
key `K`, `verifyOne` returns `no signature found for K` when `K.sig` is missing and
`invalid signature: ...` when `K.sig` is not base64, not the error
`unsupported key type`. -/
theorem keyType_examined_last (env : GoEnv) (rendered : String) :
    (∀ rs svid block cert,
      (buildResultMap rs).get? "SVID" = some svid →
      env.pemDecode (toBytes svid.Value) = some block →
      env.parseCertificate block.Bytes = .ok cert →
      cert.PublicKey = .other rendered →
      (∀ r ∈ rs, r.Name = "SVID" ∨ HasSuffix r.Name ".sig" = true) →
      validateResults env rs = .ret none) ∧
    (∀ K results, results.get? (K ++ ".sig") = none →
      verifyOne env (.other rendered) K results = some ("no signature found for " ++ K) ∧
      verifyOne env (.other rendered) K results ≠
        some ("unsupported key type: " ++ rendered)) ∧
    (∀ K results signature err, results.get? (K ++ ".sig") = some signature →
      env.base64Decode signature.Value = .error err →
      verifyOne env (.other rendered) K results = some ("invalid signature: " ++ err) ∧
      verifyOne env (.other rendered) K results ≠
        some ("unsupported key type: " ++ rendered)) := by
  refine ⟨?_, ?_, ?_⟩
  · intro rs svid block cert hsvid hpem hcert _ hall
    exact validateResults_only_signatures env rs svid block cert hsvid hpem hcert hall
  · intro K results hsig
    have h : verifyOne env (.other rendered) K results
        = some ("no signature found for " ++ K) := by
      simp [verifyOne, hsig]
    refine ⟨h, ?_⟩
    rw [h]
    intro heq
    exact missing_ne_unsupported K rendered (Option.some.inj heq)
  · intro K results signature err hsig hdec
    have h : verifyOne env (.other rendered) K results
        = some ("invalid signature: " ++ err) := by
      simp [verifyOne, hsig, hdec]
    refine ⟨h, ?_⟩
    rw [h]
    intro heq
    exact invalid_ne_unsupported err rendered (Option.some.inj heq)

theorem keyType_examined_last_witness :
    validateResults sampleEnv [⟨"SVID", "-O"⟩, ⟨"X.sig", "!v"⟩] = .ret none ∧
    verifyOne sampleEnv (.other "%!s(<nil>)") "X" [("X", ⟨"X", "v"⟩)]
      = some "no signature found for X" ∧
    verifyOne sampleEnv (.other "%!s(<nil>)") "X"
        [("X", ⟨"X", "v"⟩), ("X.sig", ⟨"X.sig", "!v"⟩)]
      = some "invalid signature: illegal base64 data at input byte 0" :=
  ⟨(keyType_examined_last sampleEnv "%!s(<nil>)").1 [⟨"SVID", "-O"⟩, ⟨"X.sig", "!v"⟩]
      ⟨"SVID", "-O"⟩ ⟨"CERTIFICATE", toBytes "O"⟩ ⟨.other "%!s(<nil>)"⟩
      (by decide) (by decide) rfl rfl (by decide),
   ((keyType_examined_last sampleEnv "%!s(<nil>)").2.1 "X" [("X", ⟨"X", "v"⟩)]
      (by decide)).1,
   ((keyType_examined_last sampleEnv "%!s(<nil>)").2.2 "X"
      [("X", ⟨"X", "v"⟩), ("X.sig", ⟨"X.sig", "!v"⟩)] ⟨"X.sig", "!v"⟩
      "illegal base64 data at input byte 0" (by decide) rfl).1⟩

/-- Two runs of `validateResults` that find the same SVID and whose loops return the same
return the same. -/
theorem validateResults_eq_of_loop_eq (env₁ env₂ : GoEnv) (rs₁ rs₂ : List TaskRunResult)
    (hpem : env₁.pemDecode = env₂.pemDecode)
    (hparse : env₁.parseCertificate = env₂.parseCertificate)
    (hsvid : (buildResultMap rs₁).get? "SVID" = (buildResultMap rs₂).get? "SVID")
    (hloop : ∀ pub,
      verifyKeys env₁ pub (buildResultMap rs₁) (env₁.rangeOrder (buildResultMap rs₁).keys) =
      verifyKeys env₂ pub (buildResultMap rs₂) (env₂.rangeOrder (buildResultMap rs₂).keys)) :
    validateResults env₁ rs₁ = validateResults env₂ rs₂ := by
  unfold validateResults
  simp only [hsvid, hpem, hparse]
  cases (buildResultMap rs₂).get? "SVID" with
  | none => rfl
  | some svid =>
    simp only []
    cases env₂.pemDecode (toBytes svid.Value) with
    | none => rfl
    | some block =>
      simp only []
      cases env₂.parseCertificate block.Bytes with
      | error err => rfl
      | ok cert => simp only [hloop]

/-- Two runs of `validateResults` that find the same SVID and whose loops pass together
pass together and panic together. -/
theorem validateResults_class_of_loop_iff (env : GoEnv) (rs₁ rs₂ : List TaskRunResult)
    (hsvid : (buildResultMap rs₁).get? "SVID" = (buildResultMap rs₂).get? "SVID")
    (hloop : ∀ pub,
      verifyKeys env pub (buildResultMap rs₁) (env.rangeOrder (buildResultMap rs₁).keys) = none ↔
      verifyKeys env pub (buildResultMap rs₂) (env.rangeOrder (buildResultMap rs₂).keys) = none) :
    (validateResults env rs₁ = .ret none ↔ validateResults env rs₂ = .ret none) ∧
    (∀ msg, validateResults env rs₁ = .panic msg ↔ validateResults env rs₂ = .panic msg) := by
  unfold validateResults
  simp only [hsvid]
  cases (buildResultMap rs₂).get? "SVID" with
  | none => exact ⟨Iff.rfl, fun _ => Iff.rfl⟩
  | some svid =>
    simp only []
    cases env.pemDecode (toBytes svid.Value) with
    | none => exact ⟨Iff.rfl, fun _ => Iff.rfl⟩
    | some block =>
      simp only []
      cases env.parseCertificate block.Bytes with
      | error err => exact ⟨Iff.rfl, fun _ => Iff.rfl⟩
      | ok cert =>
        simp only [Run.ret.injEq, hloop, false_iff, not_false_eq_true, implies_true,
          and_self, reduceCtorEq]

/-- Two result lists whose maps hold the same SVID and the same checked keys, with the
same checks, pass together and panic together. -/
theorem validateResults_class_of_agree (env : GoEnv) (rs rs' : List TaskRunResult)
    (H1 : (buildResultMap rs).get? "SVID" = (buildResultMap rs').get? "SVID")
    (H2 : ∀ k, isChecked k = true →
      (k ∈ (buildResultMap rs).keys ↔ k ∈ (buildResultMap rs').keys))
    (H3 : ∀ pub k, k ∈ (buildResultMap rs).keys → isChecked k = true →
      verifyOne env pub k (buildResultMap rs) = verifyOne env pub k (buildResultMap rs')) :
    (validateResults env rs = .ret none ↔ validateResults env rs' = .ret none) ∧
    (∀ msg, validateResults env rs = .panic msg ↔ validateResults env rs' = .panic msg) := by
  apply validateResults_class_of_loop_iff env rs rs' H1
  intro pub
  rw [verifyKeys_eq_none_iff, verifyKeys_eq_none_iff]
  constructor
  · intro h k hk hne hsuf
    have hc : isChecked k = true := (isChecked_iff k).mpr ⟨hne, hsuf⟩
    have hk' : k ∈ (buildResultMap rs).keys :=
      (H2 k hc).mpr ((env.rangeOrder_perm _).mem_iff.mp hk)
    rw [← H3 pub k hk' hc]
    exact h k ((env.rangeOrder_perm _).mem_iff.mpr hk') hne hsuf
  · intro h k hk hne hsuf
    have hc : isChecked k = true := (isChecked_iff k).mpr ⟨hne, hsuf⟩
    have hk' : k ∈ (buildResultMap rs).keys := (env.rangeOrder_perm _).mem_iff.mp hk
    rw [H3 pub k hk' hc]
    exact h k ((env.rangeOrder_perm _).mem_iff.mpr ((H2 k hc).mp hk')) hne hsuf

/-- Two result lists whose maps hold the same SVID and the same checked keys, with the
same checks: whatever `validateResults` returns on the first for one order of `range`,
it returns on the second for some order of `range`. -/
theorem validateResults_reorder (env : GoEnv) (rs rs' : List TaskRunResult)
    (H1 : (buildResultMap rs).get? "SVID" = (buildResultMap rs').get? "SVID")
    (H2 : ∀ k, isChecked k = true →
      (k ∈ (buildResultMap rs).keys ↔ k ∈ (buildResultMap rs').keys))
    (H3 : ∀ pub k, k ∈ (buildResultMap rs).keys → isChecked k = true →
      verifyOne env pub k (buildResultMap rs) = verifyOne env pub k (buildResultMap rs'))
    (o : List String → List String) (h : ∀ ks, (o ks).Perm ks) :
    ∃ (o' : List String → List String) (h' : ∀ ks, (o' ks).Perm ks),
      validateResults (env.withRangeOrder o' h') rs' =
        validateResults (env.withRangeOrder o h) rs := by
  have hperm : (((o (buildResultMap rs).keys).filter isChecked) ++
      (buildResultMap rs').keys.filter (fun k => !isChecked k)).Perm (buildResultMap rs').keys := by
    have p1 : ((o (buildResultMap rs).keys).filter isChecked).Perm
        ((buildResultMap rs').keys.filter isChecked) := by
      refine ((h _).filter _).trans ?_
      refine (List.perm_ext_iff_of_nodup ((nodup_keys_buildResultMap rs).filter _)
        ((nodup_keys_buildResultMap rs').filter _)).mpr ?_
      intro k
      simp only [List.mem_filter]
      constructor
      · rintro ⟨hk, hc⟩
        exact ⟨(H2 k hc).mp hk, hc⟩
      · rintro ⟨hk, hc⟩
        exact ⟨(H2 k hc).mpr hk, hc⟩
    exact (p1.append_right _).trans (List.filter_append_perm _ _)
  refine ⟨fun ks => if ks = (buildResultMap rs').keys then
      ((o (buildResultMap rs).keys).filter isChecked) ++
        (buildResultMap rs').keys.filter (fun k => !isChecked k)
    else ks, ?_, ?_⟩
  · intro ks
    by_cases hks : ks = (buildResultMap rs').keys
    · simp only [hks, if_true]
      exact hperm
    · simp only [hks, if_false]
      exact List.Perm.refl ks
  · refine validateResults_eq_of_loop_eq (env.withRangeOrder _ _) (env.withRangeOrder o h)
      rs' rs rfl rfl H1.symm ?_
    intro pub
    rw [verifyKeys_withRangeOrder, verifyKeys_withRangeOrder]
    show verifyKeys env pub (buildResultMap rs')
        (if (buildResultMap rs').keys = (buildResultMap rs').keys then
          ((o (buildResultMap rs).keys).filter isChecked) ++
            (buildResultMap rs').keys.filter (fun k => !isChecked k)
        else (buildResultMap rs').keys) =
      verifyKeys env pub (buildResultMap rs) (o (buildResultMap rs).keys)
    rw [if_pos rfl, verifyKeys_eq_filter env pub (buildResultMap rs'),
      verifyKeys_eq_filter env pub (buildResultMap rs) (o _)]
    have hfilter : (((o (buildResultMap rs).keys).filter isChecked) ++
        (buildResultMap rs').keys.filter (fun k => !isChecked k)).filter isChecked =
        (o (buildResultMap rs).keys).filter isChecked := by
      simp [List.filter_append, List.filter_filter]
    rw [hfilter]
    symm
    apply verifyKeys_congr_on
    intro k hk hc
    exact H3 pub k ((h _).mem_iff.mp (List.mem_filter.mp hk).1) hc

/-- Two runs that pass together and panic together return an error together. -/
theorem error_iff_of_class (x y : Run GoError)
    (hpass : x = .ret none ↔ y = .ret none)
    (hpanic : ∀ msg, x = .panic msg ↔ y = .panic msg) :
    (∃ err, x = .ret (some err)) ↔ (∃ err, y = .ret (some err)) := by
  constructor
  · rintro ⟨err, hx⟩
    cases y with
    | ret e =>
      cases e with
      | none =>
        have := hpass.mpr rfl
        rw [hx] at this
        simp at this
      | some err' => exact ⟨err', rfl⟩
    | panic msg =>
      have := (hpanic msg).mpr rfl
      rw [hx] at this
      simp at this
  · rintro ⟨err, hy⟩
    cases x with
    | ret e =>
      cases e with
      | none =>
        have := hpass.mp rfl
        rw [hy] at this
        simp at this
      | some err' => exact ⟨err', rfl⟩
    | panic msg =>
      have := (hpanic msg).mp rfl
      rw [hy] at this
      simp at this

/-- Two result lists whose maps hold the same SVID and the same checked keys, with the
same checks, have the same outcomes: they pass together, panic together and fail
together, and what one returns for some order of `range` the other returns for some
order of `range`. -/
theorem validateResults_same_outcomes (env : GoEnv) (rs rs' : List TaskRunResult)
    (H1 : (buildResultMap rs).get? "SVID" = (buildResultMap rs').get? "SVID")
    (H2 : ∀ k, isChecked k = true →
      (k ∈ (buildResultMap rs).keys ↔ k ∈ (buildResultMap rs').keys))
    (H3 : ∀ pub k, k ∈ (buildResultMap rs).keys → isChecked k = true →
      verifyOne env pub k (buildResultMap rs) = verifyOne env pub k (buildResultMap rs')) :
    (validateResults env rs = .ret none ↔ validateResults env rs' = .ret none) ∧
    (∀ msg, validateResults env rs = .panic msg ↔ validateResults env rs' = .panic msg) ∧
    ((∃ err, validateResults env rs = .ret (some err)) ↔
      (∃ err, validateResults env rs' = .ret (some err))) ∧
    (∀ out,
      (∃ (o : List String → List String) (h : ∀ ks, (o ks).Perm ks),
        validateResults (env.withRangeOrder o h) rs = out) ↔
      (∃ (o : List String → List String) (h : ∀ ks, (o ks).Perm ks),
        validateResults (env.withRangeOrder o h) rs' = out)) := by
  have hclass := validateResults_class_of_agree env rs rs' H1 H2 H3
  have H3' : ∀ pub k, k ∈ (buildResultMap rs').keys → isChecked k = true →
      verifyOne env pub k (buildResultMap rs') = verifyOne env pub k (buildResultMap rs) :=
    fun pub k hk hc => (H3 pub k ((H2 k hc).mpr hk) hc).symm
  refine ⟨hclass.1, hclass.2, error_iff_of_class _ _ hclass.1 hclass.2, ?_⟩
  intro out
  constructor
  · rintro ⟨o, h, hout⟩
    obtain ⟨o', h', heq⟩ := validateResults_reorder env rs rs' H1 H2 H3 o h
    exact ⟨o', h', heq.trans hout⟩
  · rintro ⟨o, h, hout⟩
    obtain ⟨o', h', heq⟩ :=
      validateResults_reorder env rs' rs H1.symm (fun k hc => (H2 k hc).symm) H3' o h
    exact ⟨o', h', heq.trans hout⟩

/-- The search for a name, from the end, finds the same result once the earlier
duplicates are removed. -/
theorem find?_reverse_removeEarlierDuplicates (rs : List TaskRunResult) (k : String) :
    (removeEarlierDuplicates rs).reverse.find? (fun r => decide (r.Name = k)) =
      rs.reverse.find? (fun r => decide (r.Name = k)) := by
  induction rs with
  | nil => rfl
  | cons r rest ih =>
    rw [List.reverse_cons, List.find?_append]
    by_cases hany : rest.any (fun r' => decide (r'.Name = r.Name)) = true
    · simp only [removeEarlierDuplicates, hany, if_true, ih]
      by_cases hk : r.Name = k
      · obtain ⟨x, hx, hname⟩ := List.any_eq_true.mp hany
        have hname' : x.Name = k := by
          rw [← hk]
          simpa using hname
        cases hfind : rest.reverse.find? (fun r => decide (r.Name = k)) with
        | none =>
          have := List.find?_eq_none.mp hfind x (List.mem_reverse.mpr hx)
          simp [hname'] at this
        | some y => simp
      · simp [List.find?_cons, hk]
    · simp only [removeEarlierDuplicates, hany, Bool.false_eq_true, if_false,
        List.reverse_cons, List.find?_append, ih]

/-- Removing the earlier duplicates leaves the result map as it is. -/
theorem get?_removeEarlierDuplicates (rs : List TaskRunResult) (k : String) :
    (buildResultMap rs).get? k = (buildResultMap (removeEarlierDuplicates rs)).get? k := by
  rw [get?_buildResultMap, get?_buildResultMap, find?_reverse_removeEarlierDuplicates]

theorem mem_of_mem_removeEarlierDuplicates (rs : List TaskRunResult) (x : TaskRunResult)
    (h : x ∈ removeEarlierDuplicates rs) : x ∈ rs := by
  induction rs with
  | nil => simp [removeEarlierDuplicates] at h
  | cons r rest ih =>
    by_cases hany : rest.any (fun r' => decide (r'.Name = r.Name)) = true
    · simp only [removeEarlierDuplicates, hany, if_true] at h
      exact List.mem_cons_of_mem _ (ih h)
    · simp only [removeEarlierDuplicates, hany, Bool.false_eq_true, if_false,
        List.mem_cons] at h
      rcases h with h | h
      · exact h ▸ List.mem_cons_self _ _
      · exact List.mem_cons_of_mem _ (ih h)

/-- Once the earlier duplicates are removed, the names are pairwise distinct. -/
theorem nodup_names_removeEarlierDuplicates (rs : List TaskRunResult) :
    ((removeEarlierDuplicates rs).map (·.Name)).Nodup := by
  induction rs with
  | nil => simp [removeEarlierDuplicates]
  | cons r rest ih =>
    by_cases hany : rest.any (fun r' => decide (r'.Name = r.Name)) = true
    · simpa only [removeEarlierDuplicates, hany, if_true] using ih
    · simp only [removeEarlierDuplicates, hany, Bool.false_eq_true, if_false, List.map_cons]
      refine List.nodup_cons.mpr ⟨?_, ih⟩
      intro hmem
      obtain ⟨x, hx, hname⟩ := List.mem_map.mp hmem
      apply hany
      exact List.any_eq_true.mpr
        ⟨x, mem_of_mem_removeEarlierDuplicates rest x hx, by simpa using hname⟩

theorem mem_keys_iff_get? {V : Type} (m : GoMap V) (k : String) :
    k ∈ m.keys ↔ m.get? k ≠ none := by
  rw [Ne, GoMap.get?_eq_none_iff, not_not]

/-- C21. `validateResults` uses only the last result of each name: the result map holds,
for every name, the last result of that name, and the outcome on a result list is the
outcome on the list in which every earlier duplicate has been removed (a list of pairwise
distinct names): the two pass together, panic together and fail together, and what one
returns for some order of `range` over the map the other returns for some order. -/
theorem validateResults_last_occurrence (env : GoEnv) (rs : List TaskRunResult) :
    (∀ k, (buildResultMap rs).get? k = rs.reverse.find? (fun r => decide (r.Name = k))) ∧
    ((removeEarlierDuplicates rs).map (·.Name)).Nodup ∧
    (validateResults env rs = .ret none ↔
      validateResults env (removeEarlierDuplicates rs) = .ret none) ∧
    (∀ msg, validateResults env rs = .panic msg ↔
      validateResults env (removeEarlierDuplicates rs) = .panic msg) ∧
    ((∃ err, validateResults env rs = .ret (some err)) ↔
      (∃ err, validateResults env (removeEarlierDuplicates rs) = .ret (some err))) ∧
    (∀ out,
      (∃ (o : List String → List String) (h : ∀ ks, (o ks).Perm ks),
        validateResults (env.withRangeOrder o h) rs = out) ↔
      (∃ (o : List String → List String) (h : ∀ ks, (o ks).Perm ks),
        validateResults (env.withRangeOrder o h) (removeEarlierDuplicates rs) = out)) := by
  have hget := get?_removeEarlierDuplicates rs
  refine ⟨get?_buildResultMap rs, nodup_names_removeEarlierDuplicates rs, ?_⟩
  apply validateResults_same_outcomes env rs (removeEarlierDuplicates rs) (hget "SVID")
  · intro k _
    rw [mem_keys_iff_get?, mem_keys_iff_get?, hget k]
  · intro pub k _ _
    exact verifyOne_congr env pub k _ _ hget

/-- A result added anywhere in the list changes the map at its own name only. -/
theorem get?_buildResultMap_insert (pre post : List TaskRunResult) (x : TaskRunResult)
    (k : String) (hk : k ≠ x.Name) :
    (buildResultMap (pre ++ x :: post)).get? k = (buildResultMap (pre ++ post)).get? k := by
  have hx : ¬ x.Name = k := fun e => hk e.symm
  rw [get?_buildResultMap, get?_buildResultMap]
  simp [List.find?_append, List.find?_cons, hx]

theorem append_sig_cancel (a b : String) (h : a ++ ".sig" = b ++ ".sig") : a = b := by
  have h2 := congrArg String.data h
  rw [String.data_append, String.data_append] at h2
  exact String.ext (List.append_cancel_right h2)

/-- C22. A result whose name ends in `.sig` is never itself checked. For a name `N`
that is not the name of a result of the list, adding a result named `N.sig`, of any
value and at any place, leaves the outcome of `validateResults` unchanged: the two lists
pass together, panic together and fail together, and what one returns for some order of
`range` over the map the other returns for some order. And with a certificate that
parses, a list made of SVID and of results that end in `.sig` passes. -/
theorem validateResults_signature_not_checked (env : GoEnv)
    (pre post : List TaskRunResult) (x : TaskRunResult) (N : String)
    (hx : x.Name = N ++ ".sig") (hN : ∀ r ∈ pre ++ post, r.Name ≠ N) :
    ((validateResults env (pre ++ post) = .ret none ↔
        validateResults env (pre ++ x :: post) = .ret none) ∧
      (∀ msg, validateResults env (pre ++ post) = .panic msg ↔
        validateResults env (pre ++ x :: post) = .panic msg) ∧
      ((∃ err, validateResults env (pre ++ post) = .ret (some err)) ↔
        (∃ err, validateResults env (pre ++ x :: post) = .ret (some err))) ∧
      (∀ out,
        (∃ (o : List String → List String) (h : ∀ ks, (o ks).Perm ks),
          validateResults (env.withRangeOrder o h) (pre ++ post) = out) ↔
        (∃ (o : List String → List String) (h : ∀ ks, (o ks).Perm ks),
          validateResults (env.withRangeOrder o h) (pre ++ x :: post) = out))) ∧
    (∀ rs svid block cert,
      (buildResultMap rs).get? "SVID" = some svid →
      env.pemDecode (toBytes svid.Value) = some block →
      env.parseCertificate block.Bytes = .ok cert →
      (∀ r ∈ rs, r.Name = "SVID" ∨ HasSuffix r.Name ".sig" = true) →
      validateResults env rs = .ret none) := by
  have hxsuf : HasSuffix x.Name ".sig" = true := by
    rw [hx]
    exact HasSuffix_append_sig N
  have hne : ∀ k, isChecked k = true → k ≠ x.Name := by
    intro k hc hk
    have := ((isChecked_iff k).mp hc).2
    rw [hk, hxsuf] at this
    simp at this
  have hSVID : "SVID" ≠ x.Name := by
    intro h
    rw [← h] at hxsuf
    revert hxsuf
    decide
  refine ⟨?_, ?_⟩
  · apply validateResults_same_outcomes env (pre ++ post) (pre ++ x :: post)
    · exact (get?_buildResultMap_insert pre post x "SVID" hSVID).symm
    · intro k hc
      rw [mem_keys_iff_get?, mem_keys_iff_get?, get?_buildResultMap_insert pre post x k (hne k hc)]
    · intro pub k hk hc
      obtain ⟨r, hr, hname⟩ := (mem_keys_buildResultMap (pre ++ post) k).mp hk
      have hkN : k ≠ N := by
        rw [← hname]
        exact hN r hr
      have hsig : k ++ ".sig" ≠ x.Name := by
        rw [hx]
        intro h
        exact hkN (append_sig_cancel k N h)
      apply verifyOne_congr_at
      · exact (get?_buildResultMap_insert pre post x _ hsig).symm
      · exact (get?_buildResultMap_insert pre post x k (hne k hc)).symm
  · intro rs svid block cert hsvid hpem hcert hall
    exact validateResults_only_signatures env rs svid block cert hsvid hpem hcert hall

theorem validateResults_signature_not_checked_witness :
    (validateResults sampleEnv ([⟨"SVID", "-E"⟩, ⟨"X", "v"⟩] ++ [⟨"X.sig", "v"⟩]) = .ret none ↔
      validateResults sampleEnv
        ([⟨"SVID", "-E"⟩, ⟨"X", "v"⟩] ++ ⟨"Y.sig", "!not base64"⟩ :: [⟨"X.sig", "v"⟩])
        = .ret none) ∧
    validateResults sampleEnv [⟨"SVID", "-E"⟩, ⟨"Y.sig", "!not base64"⟩] = .ret none :=
  ⟨(validateResults_signature_not_checked sampleEnv [⟨"SVID", "-E"⟩, ⟨"X", "v"⟩]
      [⟨"X.sig", "v"⟩] ⟨"Y.sig", "!not base64"⟩ "Y" (by decide) (by decide)).1.1,
   (validateResults_signature_not_checked sampleEnv [⟨"SVID", "-E"⟩, ⟨"X", "v"⟩]
      [⟨"X.sig", "v"⟩] ⟨"Y.sig", "!not base64"⟩ "Y" (by decide) (by decide)).2
      [⟨"SVID", "-E"⟩, ⟨"Y.sig", "!not base64"⟩] ⟨"SVID", "-E"⟩
      ⟨"CERTIFICATE", toBytes "E"⟩ ⟨.ecdsa []⟩ (by decide) (by decide) rfl (by decide)⟩

end Tekton

end Chains
